import Mathlib

/-!
Verification of the supervisord-dependent-startup event listener
(`supervisord_dependent_startup/supervisord_dependent_startup.py`).

The development shallowly embeds the data model and the operations of the
listener.  Python dictionaries (`OrderedDict`) are modelled as association
lists that preserve insertion order; the configured error policy is the
`ErrorAction` type; fallible code returns `Except String`; the unbounded
recursion of `Service.priority_sort` is modelled with an explicit fuel
argument where running out of fuel (`none`) corresponds to the Python
`RecursionError` / `KeyError` crashes.  The external supervisor RPC interface
is modelled as an environment: a list of state snapshots consumed one at a
time by the `update_proc_info` calls, mirroring how each RPC query may return
fresh information.
-/

namespace DependentStartup

/-- Options parsed for one service section (class `ServiceOptions`,
source lines 160-286).  A field value `none` models the option being absent
from the parsed `opts` dictionary. -/
structure ServiceOptions where
  priorityOpt : Option Int
  autostartOpt : Option Bool
  dependentStartupOpt : Option Bool
  inheritPriorityOpt : Option Bool
  wait_for_services : List (String × List String)
  procnames : List String
deriving DecidableEq

/-- Property `ServiceOptions.autostart` (line 245-247): `opts.get("autostart", True)`. -/
def ServiceOptions.autostart_get (o : ServiceOptions) : Bool :=
  o.autostartOpt.getD true

/-- Property `ServiceOptions.dependent_startup` (line 253-255):
`opts.get("dependent_startup", False)`. -/
def ServiceOptions.dependent_startup_get (o : ServiceOptions) : Bool :=
  o.dependentStartupOpt.getD false

/-- Property `ServiceOptions.inherit_priority` (line 261-263):
`opts.get("dependent_startup_inherit_priority", False)`. -/
def ServiceOptions.inherit_priority_get (o : ServiceOptions) : Bool :=
  o.inheritPriorityOpt.getD false

/-- A managed service (class `Service`, lines 289-447).  `procs_state` maps
each constituent process name to the append-only list of state names the
process has reached, mirroring `self.procs_state[procname]["states_reached"]`. -/
structure Service where
  name : String
  group : String
  options : ServiceOptions
  procs_state : List (String × List String)
deriving DecidableEq

/-- Truthiness of the optional integer priority: Python `if self.priority:`
is false for both `None` and `0` (line 415). -/
def intTruthy : Option Int → Bool
  | none => false
  | some n => n != 0

/-- Lookup of a service by name in the ordered service table
(`self._services[name]` / `name in self._services`). -/
def lookupSvc (tbl : List (String × Service)) (n : String) : Option Service :=
  tbl.lookup n

/-- Method `Service.has_process` (lines 302-311): `procname in self.procs_state`. -/
def Service.has_process (s : Service) (procname : String) : Bool :=
  (s.procs_state.lookup procname).isSome

/-- Method `Service.process_state_update` (lines 365-369): append `state` to
`procs_state[procname]["states_reached"]`. -/
def Service.process_state_update (s : Service) (procname state : String) : Service :=
  { s with procs_state :=
      s.procs_state.map (fun q => if q.1 == procname then (q.1, q.2 ++ [state]) else q) }

/-- Method `Service.has_reached_states` (lines 346-363): true iff for at
least one of the given states every constituent process has that state in its
reached-state history. -/
def Service.has_reached_states (s : Service) (states : List String) : Bool :=
  states.any (fun st => s.procs_state.all (fun p => p.2.contains st))

/-- Property `Service.priority_sort` (lines 411-421), with an explicit fuel
bound on the recursion depth.  `none` models the crash of the Python code
(unbounded recursion on a cyclic inheritance chain, or a `KeyError` on a
dependency missing from the table).  The default priority 999 is
`Service.default_priority_sort` (line 292). -/
def priority_sortF (tbl : List (String × Service)) : Nat → Service → Option Int
  | fuel, s =>
    let p : Int := if intTruthy s.options.priorityOpt then s.options.priorityOpt.getD 999 else 999
    if s.options.inherit_priority_get then
      match fuel with
      | 0 => none
      | Nat.succ f =>
        s.options.wait_for_services.foldl
          (fun acc dep =>
            acc.bind (fun a =>
              ((lookupSvc tbl dep.1).bind (fun d => priority_sortF tbl f d)).map
                (fun dp => min a dp)))
          (some p)
    else some p

/-- Property `Service.priority_effective` (lines 423-429): `None` when the
sortable priority equals the 999 sentinel. -/
def priority_effectiveF (tbl : List (String × Service)) (fuel : Nat) (s : Service) :
    Option (Option Int) :=
  (priority_sortF tbl fuel s).map (fun p => if p == 999 then none else some p)

/-- Totalised variant of `priority_sortF` used where the value only serves as
a sort key (`get_sorted_services_list` and `start_services`); on the inputs
where the Python code would crash it falls back to the 999 default. -/
def priority_sortT (tbl : List (String × Service)) (fuel : Nat) (s : Service) : Int :=
  (priority_sortF tbl fuel s).getD 999

/-- Totalised variant of `priority_effectiveF`, same caveat as `priority_sortT`. -/
def priority_effectiveT (tbl : List (String × Service)) (fuel : Nat) (s : Service) : Option Int :=
  let p := priority_sortT tbl fuel s
  if p == 999 then none else some p

/-- The per-dependency priorities that the `inherit_priority` loop of
`priority_sort` (lines 418-420) consults, as one sequenced computation: `none`
if any dependency lookup or any recursive priority computation crashes. -/
def depPriorities (tbl : List (String × Service)) (fuel : Nat) :
    List (String × List String) → Option (List Int)
  | [] => some []
  | dep :: rest =>
    ((lookupSvc tbl dep.1).bind (fun d => priority_sortF tbl fuel d)).bind (fun v =>
      (depPriorities tbl fuel rest).map (fun vs => v :: vs))

/-- The priority value of lines 414-416 before inheritance is applied: the
explicit priority when it is set and nonzero (Python truthiness), else the 999
default. -/
def base_priority (s : Service) : Int :=
  if intTruthy s.options.priorityOpt then s.options.priorityOpt.getD 999 else 999

/-- The `--error-action` command line choice (`choices=["exit", "skip", "ignore"]`,
line 873). -/
inductive ErrorAction where
  | exit
  | skip
  | ignore
deriving DecidableEq

/-- One service step of `ServicesHandler.verify_dependencies` (lines 572-584):
under policy `exit` the first dependency name missing from the table raises;
otherwise every missing dependency is deleted from `wait_for_services`. -/
def verify_service (error_action : ErrorAction) (tbl : List (String × Service))
    (sname : String) (svc : Service) : Except String Service :=
  if error_action = ErrorAction.exit then
    match svc.options.wait_for_services.find? (fun dep => (lookupSvc tbl dep.1).isNone) with
    | some dep =>
        Except.error ("Service " ++ sname ++ " depends on unknown service " ++ dep.1)
    | none => Except.ok svc
  else
    let kept := svc.options.wait_for_services.filter (fun dep => (lookupSvc tbl dep.1).isSome)
    Except.ok { svc with options := { svc.options with wait_for_services := kept } }

/-- Loop of `ServicesHandler.verify_dependencies` (lines 572-584), applied to
every service of the table in order; a raise aborts the whole pass.  Key
membership is always tested against the full original table, exactly as
`dep not in self._services` is. -/
def verify_deps_go (error_action : ErrorAction) (tbl : List (String × Service)) :
    List (String × Service) → Except String (List (String × Service))
  | [] => Except.ok []
  | ns :: rest =>
    match verify_service error_action tbl ns.1 ns.2 with
    | Except.error e => Except.error e
    | Except.ok v => (verify_deps_go error_action tbl rest).map (fun vs => (ns.1, v) :: vs)

/-- Method `ServicesHandler.verify_dependencies` (lines 572-584) over the
whole table. -/
def verify_dependencies (error_action : ErrorAction) (tbl : List (String × Service)) :
    Except String (List (String × Service)) :=
  verify_deps_go error_action tbl tbl

/-- The dependency-edge filtering performed by `verify_dependencies` on one
service under a non-exit policy: keep exactly the dependencies whose name is a
key of the table. -/
def drop_unknown_deps (tbl : List (String × Service)) (svc : Service) : Service :=
  let kept := svc.options.wait_for_services.filter (fun dep => (lookupSvc tbl dep.1).isSome)
  { svc with options := { svc.options with wait_for_services := kept } }

/-- The configuration-conflict check at the end of `Service.parse_section`
(lines 327-344): a service with `dependent_startup` true and `autostart` true
(explicitly or by default) is a configuration error; policy `exit` raises,
policies `skip` and `ignore` force `dependent_startup` to `False`. -/
def parse_section_check (error_action : ErrorAction) (svc : Service) : Except String Service :=
  if svc.options.dependent_startup_get then
    if svc.options.autostart_get then
      match error_action with
      | ErrorAction.exit =>
          Except.error ("Service " ++ svc.name ++
            " config has dependent_startup set to True, which requires autostart to be set explicitly to false")
      | _ =>
          Except.ok { svc with options := { svc.options with dependentStartupOpt := some false } }
    else Except.ok svc
  else Except.ok svc

/-- The conflict check applied to every parsed service, as the
`parse_config` loop over `program:` sections does (lines 561-565); a raise in
any section aborts the whole parse. -/
def parse_all_sections (error_action : ErrorAction) :
    List Service → Except String (List Service)
  | [] => Except.ok []
  | svc :: rest =>
    match parse_section_check error_action svc with
    | Except.error e => Except.error e
    | Except.ok v => (parse_all_sections error_action rest).map (fun vs => v :: vs)

/-- The effect of `parse_section_check` under a non-exit policy on one
service: force `dependent_startup` off when it conflicts with `autostart`. -/
def disable_on_conflict (svc : Service) : Service :=
  if svc.options.dependent_startup_get && svc.options.autostart_get then
    { svc with options := { svc.options with dependentStartupOpt := some false } }
  else svc

/-- The dependency dictionary built at the top of
`ServicesHandler.get_sorted_services_list` (lines 587-589):
`deps_dict[name] = set(wait_for_services.keys())`. -/
def depsOf (tbl : List (String × Service)) : List (String × List String) :=
  tbl.map (fun ns => (ns.1, ns.2.options.wait_for_services.map Prod.fst))

/-- Step 1 of the `toposort` library: `v.discard(k)`, ignoring self
dependencies. -/
def selfDiscard (data : List (String × List String)) : List (String × List String) :=
  data.map (fun kd => (kd.1, kd.2.filter (fun d => !(d == kd.1))))

/-- Step 2 of the `toposort` library: the dependency names that are not keys
of the data; they are added as items with no dependencies.  The library
iterates a Python set here, so the order among the extra items is not
specified; this model fixes the first-occurrence order. -/
def extraItems (data : List (String × List String)) : List String :=
  ((data.map Prod.snd).flatten.filter (fun d => !((data.map Prod.fst).contains d))).dedup

/-- The main loop of the `toposort` library: repeatedly emit the set of items
whose remaining dependency set is empty, removing them from the data.  `none`
models `CircularDependencyError` (raised when no progress is possible on
nonempty data).  The fuel argument bounds the number of iterations; callers
pass `data.length + 1` which always suffices since every successful round
removes at least one item. -/
def toposortLayers : Nat → List (String × List String) → Option (List (List String))
  | _, [] => some []
  | 0, _ :: _ => none
  | Nat.succ fuel, x :: xs =>
    let data := x :: xs
    let ordered := (data.filter (fun kd => kd.2.isEmpty)).map Prod.fst
    if ordered.isEmpty then none
    else
      let rest := (data.filter (fun kd => !(ordered.contains kd.1))).map
        (fun kd => (kd.1, kd.2.filter (fun d => !(ordered.contains d))))
      (toposortLayers fuel rest).map (fun layers => ordered :: layers)

/-- Sort key used inside each topological layer (lines 596-597):
`(priority_sort, service_name)` ascending.  A name missing from the table
would be a `KeyError` in Python; it is unreachable through `parse_config` and
mapped to the 999 default here. -/
def layerKey (tbl : List (String × Service)) (sname : String) : Int × String :=
  (match lookupSvc tbl sname with
   | some svc => priority_sortT tbl (tbl.length + 1) svc
   | none => 999,
   sname)

/-- Kernel-computable model of Python `str.replace(pat, "")`: delete every
leftmost, non-overlapping occurrence of the pattern from the character list.
The fuel is the list length, which always suffices. -/
def eraseOcc (pat : List Char) : Nat → List Char → List Char
  | _, [] => []
  | 0, l => l
  | Nat.succ f, c :: cs =>
    if !(pat.isEmpty) && pat.isPrefixOf (c :: cs) then
      eraseOcc pat f ((c :: cs).drop pat.length)
    else c :: eraseOcc pat f cs

/-- Python `str.startswith` as character-list comparison. -/
def strStartsWith (s pre : String) : Bool :=
  pre.toList.isPrefixOf s.toList

/-- Python string comparison (lexicographic by code point) as a computable
character-list comparison. -/
def charListLt : List Char → List Char → Bool
  | [], [] => false
  | [], _ :: _ => true
  | _ :: _, [] => false
  | a :: as, b :: bs => decide (a < b) || (a == b && charListLt as bs)

/-- Python `a < b` on strings. -/
def strLt (a b : String) : Bool :=
  charListLt a.toList b.toList

/-- Strict comparison of `(priority, name)` sort keys, realising the
ascending order of Python `sorted`. -/
def keyLt (x y : Int × String) : Bool :=
  decide (x.1 < y.1) || (x.1 == y.1 && strLt x.2 y.2)

/-- Stable insertion of an element into an already sorted list: the element
goes before the first position whose key is not strictly smaller, keeping the
insertion order among equal keys. -/
def insertSorted {α : Type} (lt : α → α → Bool) (x : α) : List α → List α
  | [] => [x]
  | y :: ys => if lt y x then y :: insertSorted lt x ys else x :: y :: ys

/-- Stable sort by a strict comparison; it matches Python `sorted`, which is
a stable ascending sort by key. -/
def sortBy {α : Type} (lt : α → α → Bool) : List α → List α
  | [] => []
  | x :: xs => insertSorted lt x (sortBy lt xs)

/-- Python `sorted(d, key=lambda service: (priority_sort, service))` for one
layer (lines 596-597). -/
def sortLayer (tbl : List (String × Service)) (layer : List String) : List String :=
  sortBy (fun a b => keyLt (layerKey tbl a) (layerKey tbl b)) layer

/-- Method `ServicesHandler.get_sorted_services_list` (lines 586-602): build
the dependency dictionary, run the layered topological sort of the `toposort`
library, sort every layer by `(priority_sort, name)` and concatenate.  A
`CircularDependencyError` is re-raised as a fatal `DependentStartupError`,
modelled by `Except.error`. -/
def get_sorted_services_list (tbl : List (String × Service)) : Except String (List String) :=
  let data0 := selfDiscard (depsOf tbl)
  let data := data0 ++ (extraItems data0).map (fun d => (d, []))
  match toposortLayers (data.length + 1) data with
  | none => Except.error "Circular dependencies detected"
  | some layers => Except.ok ((layers.map (sortLayer tbl)).flatten)

/-- An edge of the dependency data: `u` depends on `v`. -/
def Edge (data : List (String × List String)) (u v : String) : Prop :=
  ∃ kd ∈ data, kd.1 = u ∧ v ∈ kd.2

/-- Consecutive elements of the list are joined by dependency edges. -/
def chainEdges (data : List (String × List String)) : List String → Prop
  | [] => True
  | [_] => True
  | a :: b :: rest => Edge data a b ∧ chainEdges data (b :: rest)

/-- The dependency relation contains a cycle: a closed nonempty walk.  A self
dependency is the cycle with `rest = []`. -/
def hasCycle (data : List (String × List String)) : Prop :=
  ∃ a rest, chainEdges data (a :: rest ++ [a])

/-- Adjacent elements of the list are distinct.  A closed walk whose adjacent
elements are distinct visits at least two distinct services, so it witnesses a
cycle that is not a mere self dependency. -/
def consecDistinct : List String → Prop
  | [] => True
  | [_] => True
  | a :: b :: rest => a ≠ b ∧ consecDistinct (b :: rest)

instance decidableEdge (data : List (String × List String)) (u v : String) :
    Decidable (Edge data u v) := by
  unfold Edge; infer_instance

instance decidableChainEdges (data : List (String × List String)) :
    (l : List String) → Decidable (chainEdges data l)
  | [] => isTrue trivial
  | [_] => isTrue trivial
  | a :: b :: rest =>
    have : Decidable (chainEdges data (b :: rest)) := decidableChainEdges data (b :: rest)
    by unfold chainEdges; infer_instance

instance decidableConsecDistinct : (l : List String) → Decidable (consecDistinct l)
  | [] => isTrue trivial
  | [_] => isTrue trivial
  | a :: b :: rest =>
    have : Decidable (consecDistinct (b :: rest)) := decidableConsecDistinct (b :: rest)
    by unfold consecDistinct; infer_instance

/-- Keys of an association list are pairwise distinct (always true of the
tables built by `parse_config`, whose `_services` is a dictionary). -/
def keysNodup {β : Type} (l : List (String × β)) : Prop :=
  (l.map Prod.fst).Nodup

/-- Every dependency name is a key of the data: the invariant established by
`verify_dependencies` before `get_sorted_services_list` runs. -/
def depsSubsetKeys (data : List (String × List String)) : Prop :=
  ∀ kd ∈ data, ∀ d ∈ kd.2, d ∈ data.map Prod.fst

instance decidableKeysNodup {β : Type} [DecidableEq β] (l : List (String × β)) :
    Decidable (keysNodup l) := by
  unfold keysNodup
  infer_instance

instance decidableDepsSubsetKeys (data : List (String × List String)) :
    Decidable (depsSubsetKeys data) := by
  unfold depsSubsetKeys
  infer_instance

instance exceptDecEq {e a : Type} [DecidableEq e] [DecidableEq a] :
    DecidableEq (Except e a) := fun x y =>
  match x, y with
  | Except.error u, Except.error v =>
    if h : u = v then isTrue (by rw [h]) else isFalse (by intro hc; cases hc; exact h rfl)
  | Except.error _, Except.ok _ => isFalse (by intro hc; cases hc)
  | Except.ok _, Except.error _ => isFalse (by intro hc; cases hc)
  | Except.ok u, Except.ok v =>
    if h : u = v then isTrue (by rw [h]) else isFalse (by intro hc; cases hc; exact h rfl)

/-- Method `ServicesHandler.update_state_event` (lines 637-643): record the
reported process state on every service owning that process name. -/
def update_state_event (services : List (String × Service)) (procname state : String) :
    List (String × Service) :=
  services.map (fun ns =>
    (ns.1, if ns.2.has_process procname then ns.2.process_state_update procname state else ns.2))

/-- A process state event as decoded by `handle_event`: the raw event name
(e.g. `PROCESS_STATE_RUNNING`) together with the reporting process name from
the payload headers.  The (external) header parsing of `childutils` is out of
scope. -/
structure Event where
  eventname : String
  processname : String
deriving DecidableEq

/-- Conversion `process_state_event_to_string` (lines 81-82):
strip the `PROCESS_STATE_` marker from the event name
(`event_name.replace("PROCESS_STATE_", "")`). -/
def stateOfEvent (ev : Event) : String :=
  String.mk (eraseOcc "PROCESS_STATE_".toList ev.eventname.toList.length ev.eventname.toList)

/-- One call of `ProcessHandler.start_service` (lines 502-520): the service
object passed in, and whether a start RPC was actually issued (false when the
`is_startable` guard at line 508 refuses). -/
structure StartRec where
  service : Service
  rpc : Bool
deriving DecidableEq

/-- Observable actions of the listener loop: receiving an event from the
event channel, a call of `start_service`, and the `childutils.listener.ok`
acknowledgment. -/
inductive Action where
  | recv (ev : Event)
  | start (r : StartRec)
  | ack
deriving DecidableEq

/-- State of the `DependentStartup` scheduler (lines 685-851) together with
its environment.  `services` is `ServicesHandler._services` (an ordered
dictionary), `procInfo` is `ProcessHandler.proc_info` (the cached RPC view of
process states, procname to statename), `snaps` is the environment: the
sequence of snapshots the supervisor RPC will answer with, one consumed per
`update_proc_info` call, and `configInfo` is the (procname, group) data that
`getAllConfigInfo` returns.  `startupDone` and `startFirst` are the
`startup_done` and `start_first` attributes; `start_first` holds the table
key of the designated bootstrap service. -/
structure SchedState where
  services : List (String × Service)
  procInfo : List (String × String)
  snaps : List (List (String × String))
  configInfo : List (String × String)
  startupDone : Bool
  startFirst : Option String
deriving DecidableEq

/-- Consume the next RPC snapshot from the environment; an exhausted
environment answers with an empty snapshot. -/
def popSnap (st : SchedState) : (List (String × String)) × SchedState :=
  match st.snaps with
  | [] => ([], st)
  | s :: rest => (s, { st with snaps := rest })

/-- Python dictionary update `d[k] = v`: replace in place when the key
exists, else append. -/
def setEntry (l : List (String × String)) (k v : String) : List (String × String) :=
  if (l.lookup k).isSome then l.map (fun kv => if kv.1 == k then (k, v) else kv)
  else l ++ [(k, v)]

/-- The `self.proc_info[p_info["name"]] = p_info` loop of `update_proc_info`
(lines 474-475). -/
def mergeProcInfo (cur upd : List (String × String)) : List (String × String) :=
  upd.foldl (fun acc kv => setEntry acc kv.1 kv.2) cur

/-- Method `ProcessHandler.update_proc_info` with no service argument
(lines 467-475): refresh the cached view of every process from
`getAllProcessInfo`. -/
def update_proc_info_full (st : SchedState) : SchedState :=
  let (snap, st) := popSnap st
  { st with procInfo := mergeProcInfo st.procInfo snap }

/-- Method `ProcessHandler.update_proc_info` with a service argument: refresh
only the processes of that service (`getProcessInfo` per process). -/
def update_proc_info_service (st : SchedState) (svc : Service) : SchedState :=
  let (snap, st) := popSnap st
  let relevant := snap.filter (fun kv => svc.procs_state.any (fun p => p.1 == kv.1))
  { st with procInfo := mergeProcInfo st.procInfo relevant }

/-- Method `ServicesHandler.update_config_groups` (lines 673-682): assign to
every service whose name occurs in the supervisor group configuration the
group it belongs to (a name listed in several groups ends up with the last
one, as in the Python dictionary iteration). -/
def update_config_groups (st : SchedState) : SchedState :=
  { st with services := st.services.map (fun ns =>
      (ns.1, match (st.configInfo.filter (fun kv => kv.1 == ns.1)).getLast? with
             | some kv => { ns.2 with group := kv.2 }
             | none => ns.2)) }

/-- The `sorted(priorities, key=lambda x: float("inf") if x is None else x)`
order on optional effective priorities (line 809): `None` sorts after every
integer. -/
def optPriorityLt : Option Int → Option Int → Bool
  | none, _ => false
  | some _, none => true
  | some x, some y => decide (x < y)

/-- Supervisor `RUNNING_STATES`: the states counted as running by
`SupervisorProcessStates.is_running` (lines 64-68). -/
def running_states : List String := ["STARTING", "RUNNING", "BACKOFF"]

/-- The cached state name of a process (`self.proc_info[procname]["statename"]`).
Python raises `KeyError` for a process missing from the cache; that crash is
unreachable after `update_sevices_info` and is mapped to the supervisor
initial state STOPPED here. -/
def procStateName (procInfo : List (String × String)) (procname : String) : String :=
  (procInfo.lookup procname).getD "STOPPED"

/-- Method `ProcessHandler.is_startable` (lines 483-486): no constituent
process may be running (STARTING, RUNNING, BACKOFF) or FATAL. -/
def is_startable (procInfo : List (String × String)) (service : Service) : Bool :=
  !(service.procs_state.any (fun p =>
      running_states.contains (procStateName procInfo p.1) ||
        procStateName procInfo p.1 == "FATAL"))

/-- Method `ServicesHandler.is_service_done` (lines 628-629). -/
def is_service_done (service : Service) : Bool :=
  service.has_reached_states ["RUNNING", "FATAL"]

/-- Method `ServicesHandler.service_wait_for_satisifed` (lines 604-619, name
as in the source): every declared dependency must have reached one of its
required states.  The `self._services[dep_sname]` lookup raises `KeyError` in
Python when the dependency is unknown; that crash is unreachable after
`verify_dependencies` and is mapped to `false` (never satisfied) here. -/
def service_wait_for_satisifed (services : List (String × Service)) (service : Service) : Bool :=
  service.options.wait_for_services.all (fun dep =>
    match lookupSvc services dep.1 with
    | some dep_service => dep.2.any (fun st => dep_service.has_reached_states [st])
    | none => false)

/-- Method `ProcessHandler.start_service` (lines 502-520): refresh the
cached process states of the service (the `get_service_state_str` call at
line 504 queries with `update=True`), then refuse if not startable, else issue the
start RPC.  The RPC outcome (including an `xmlrpclib.Fault`) only affects the
ignored return value and is not part of the state. -/
def start_service (st : SchedState) (svc : Service) : SchedState × StartRec :=
  let st := update_proc_info_service st svc
  if is_startable st.procInfo svc then (st, ⟨svc, true⟩) else (st, ⟨svc, false⟩)

/-- One step of the `log_services_list` refresh: `get_service_state_str` with
`update=True` refreshes the cached process states of one service. -/
def refresh_step (acc : SchedState) (ns : String × Service) : SchedState :=
  update_proc_info_service acc ns.2

/-- One step of the first loop of `start_services` (lines 774-784): skip
services without `dependent_startup`; for done services refresh the cached
state for the log line; collect the rest. -/
def to_be_step (acc : SchedState × List (String × Service)) (ns : String × Service) :
    SchedState × List (String × Service) :=
  if !(ns.2.options.dependent_startup_get) then acc
  else if is_service_done ns.2 then (update_proc_info_service acc.1 ns.2, acc.2)
  else (acc.1, acc.2 ++ [ns])

/-- One step of the start loop of `start_services` (lines 810-812). -/
def start_step (acc : SchedState × List StartRec) (ns : String × Service) :
    SchedState × List StartRec :=
  let r := start_service acc.1 ns.2
  (r.1, acc.2 ++ [r.2])

/-- Method `DependentStartup.start_services` (lines 769-812).  First the
`log_services_list` call refreshes the cached states of every service; the
services still to be handled are collected (the done ones triggering one more
cached-state refresh for logging, line 780); if none remain the startup phase
is done.  Otherwise the startable services with satisfied dependencies are
started in ascending order of effective priority (`None` sorting last), each
start call refreshing the cached states of that service first. -/
def start_services (st : SchedState) : SchedState × List StartRec :=
  let st := st.services.foldl refresh_step st
  let stAndToBe := st.services.foldl to_be_step (st, [])
  let st := stAndToBe.1
  let to_be := stAndToBe.2
  if to_be.isEmpty then ({ st with startupDone := true }, [])
  else
    let eligible := to_be.filter (fun ns =>
      is_startable st.procInfo ns.2 && service_wait_for_satisifed st.services ns.2)
    let sorted := sortBy (fun a b =>
      optPriorityLt (priority_effectiveT st.services (st.services.length + 1) a.2)
        (priority_effectiveT st.services (st.services.length + 1) b.2)) eligible
    sorted.foldl start_step (st, [])

/-- The bootstrap-start step of `handle_event` (lines 759-766) followed by
`start_services`: if a bootstrap candidate is pending, look it up in the
table (the Python code holds a direct reference to the live service object of
`_services`), pass it to `start_service`, refresh its cached view and clear
the marker, then run the ordinary `start_services` pass. -/
def boot_and_start (st : SchedState) : SchedState × List StartRec :=
  let stBoot :=
    match st.startFirst with
    | some n =>
      match lookupSvc st.services n with
      | some svc =>
        let r := start_service st svc
        let st2 := update_proc_info_service r.1 svc
        (({ st2 with startFirst := none } : SchedState), [r.2])
      | none => (({ st with startFirst := none } : SchedState), ([] : List StartRec))
    | none => (st, ([] : List StartRec))
  let res := start_services stBoot.1
  (res.1, stBoot.2 ++ res.2)

/-- The process-state branch of `handle_event` (lines 748-766): record the
new state on the owning services, refresh the cached process view, then run
the bootstrap-start step and the ordinary start pass. -/
def handle_event_ps (st : SchedState) (ev : Event) : SchedState × List StartRec :=
  boot_and_start (update_proc_info_full
    { st with services := update_state_event st.services ev.processname (stateOfEvent ev) })

/-- Method `DependentStartup.handle_event` (lines 740-767).  Nothing happens
once `startup_done` is set or for an event that is not a process state
change.  Otherwise the process-state branch runs.  The returned list collects
every `start_service` call made, in order. -/
def handle_event (st : SchedState) (ev : Event) : SchedState × List StartRec :=
  if st.startupDone then (st, [])
  else if strStartsWith ev.eventname "PROCESS_STATE" then handle_event_ps st ev
  else (st, [])

/-- Method `DependentStartup.run` (lines 831-851): refresh all process
information and group membership, then designate as bootstrap candidate the
first service in canonical order that is managed (`dependent_startup` true,
`autostart` false), startable, and has all its dependencies satisfied.  No
start RPC is issued here.  When no candidate exists the startup phase is
immediately done. -/
def runInit (st : SchedState) : SchedState :=
  let st := update_proc_info_full st
  let st := update_config_groups st
  let st := st.services.foldl refresh_step st
  let cand := st.services.find? (fun ns =>
    !(ns.2.options.autostart_get) && ns.2.options.dependent_startup_get &&
      is_startable st.procInfo ns.2 && service_wait_for_satisifed st.services ns.2)
  match cand with
  | some ns => { st with startFirst := some ns.1 }
  | none => { st with startupDone := true }

/-- The scheduler state right after `load_config`, before `run` (lines
689-714): nothing cached, startup not done, no bootstrap candidate. -/
def initState (services : List (String × Service)) (snaps : List (List (String × String)))
    (cfg : List (String × String)) : SchedState :=
  { services := services, procInfo := [], snaps := snaps, configInfo := cfg,
    startupDone := false, startFirst := none }

/-- Method `DependentStartup._listen` (lines 814-819) applied to a stream of
incoming events: while `startup_done` is false, receive the next event,
handle it, and acknowledge it.  Once `startup_done` holds the loop exits and
the remaining events are never received.  The result records the trace of
observable actions. -/
def listen (st : SchedState) : List Event → SchedState × List Action
  | [] => (st, [])
  | ev :: rest =>
    if st.startupDone then (st, [])
    else
      let r := handle_event st ev
      let w := listen r.1 rest
      (w.1, (Action.recv ev :: r.2.map Action.start) ++ Action.ack :: w.2)

/-- Method `DependentStartup.run_and_listen` (lines 825-829). -/
def run_and_listen (st : SchedState) (events : List Event) : SchedState × List Action :=
  listen (runInit st) events

/-- The states of the event loop reachable from a freshly parsed
configuration: `run` applied to a loaded table (whose keys, coming from a
dictionary, are distinct), followed by any number of handled events. -/
inductive Reachable : SchedState → Prop
  | base (services : List (String × Service)) (snaps : List (List (String × String)))
      (cfg : List (String × String)) (h : keysNodup services) :
      Reachable (runInit (initState services snaps cfg))
  | step (st : SchedState) (ev : Event) (h : Reachable st) : Reachable (handle_event st ev).1

/-- Invariant carried by every reachable state: table keys are distinct, and
a pending bootstrap candidate is always a known, managed service whose
dependencies are all satisfied. -/
def SchedInv (st : SchedState) : Prop :=
  keysNodup st.services ∧
  ∀ n, st.startFirst = some n → ∃ svc, lookupSvc st.services n = some svc ∧
    svc.options.dependent_startup_get = true ∧
    service_wait_for_satisifed st.services svc = true

/-- Well-acknowledged traces: every received event is followed, after the
start calls its processing makes, by exactly one acknowledgment, before the
next event is received. -/
inductive WellAcked : List Action → Prop
  | nil : WellAcked []
  | seg (ev : Event) (recs : List StartRec) (rest : List Action) (h : WellAcked rest) :
      WellAcked (Action.recv ev :: recs.map Action.start ++ Action.ack :: rest)

/-! Concrete services and tables used as evaluation inputs by the witness and
counterexample theorems below. -/

/-- A managed service (`dependent_startup` true, `autostart` false
explicitly) with a single process named after itself and no recorded states,
as `parse_section` builds it from a minimal conforming section. -/
def simpleService (n : String) (pr : Option Int) (inh : Option Bool)
    (wf : List (String × List String)) : Service :=
  { name := n, group := n,
    options := { priorityOpt := pr, autostartOpt := some false, dependentStartupOpt := some true,
                 inheritPriorityOpt := inh, wait_for_services := wf, procnames := [n] },
    procs_state := [(n, [])] }

/-- Service with explicit priority 10 and no dependencies. -/
def svcB10 : Service := simpleService "b" (some 10) none []

/-- Service with explicit priority 50, priority inheritance enabled, and one
dependency on `b`. -/
def svcA50 : Service := simpleService "a" (some 50) (some true) [("b", ["RUNNING"])]

/-- Two-service table exercising priority inheritance with an explicit
priority set. -/
def tblC2 : List (String × Service) := [("a", svcA50), ("b", svcB10)]

/-- A two-process service whose processes reached RUNNING at different
points of their histories. -/
def svcW5 : Service :=
  { name := "w", group := "w",
    options := { priorityOpt := none, autostartOpt := some false, dependentStartupOpt := some true,
                 inheritPriorityOpt := none, wait_for_services := [], procnames := ["w1", "w2"] },
    procs_state := [("w1", ["STARTING", "RUNNING"]), ("w2", ["STARTING", "BACKOFF", "RUNNING"])] }

/-- Service with the explicit priority 0 (falsy in Python). -/
def svcP0 : Service := simpleService "p" (some 0) none []

/-- Service whose explicit priority equals the 999 unset sentinel. -/
def svcP999 : Service := simpleService "q" (some 999) none []

/-- Service `a` of the unknown-dependency table: one unknown dependency
(`ghost`) and one known dependency (`b`). -/
def svcA6 : Service := simpleService "a" none none [("ghost", ["RUNNING"]), ("b", ["RUNNING"])]

/-- Table in which service `a` declares one unknown dependency (`ghost`) and
one known dependency (`b`). -/
def tblC6 : List (String × Service) :=
  [("a", svcA6), ("b", simpleService "b" none none [])]

/-- A service with `dependent_startup` true while `autostart` is left unset
(hence true by default): the configuration conflict of `parse_section`. -/
def conflictSvc : Service :=
  { name := "c", group := "c",
    options := { priorityOpt := none, autostartOpt := none, dependentStartupOpt := some true,
                 inheritPriorityOpt := none, wait_for_services := [], procnames := ["c"] },
    procs_state := [("c", [])] }

/-- Acyclic two-service table: `a` waits for `b`. -/
def tblW1 : List (String × Service) :=
  [("a", simpleService "a" none none [("b", ["RUNNING"])]),
   ("b", simpleService "b" none none [])]

/-- Table whose only service depends on itself. -/
def tblSelf : List (String × Service) :=
  [("a", simpleService "a" none none [("a", ["RUNNING"])])]

/-- Two services depending on each other: a proper circular dependency. -/
def tblCyc : List (String × Service) :=
  [("a", simpleService "a" none none [("b", ["RUNNING"])]),
   ("b", simpleService "b" none none [("a", ["RUNNING"])])]

/-- Table with a single managed dependency-free service: the bootstrap
candidate of `run`. -/
def tblBoot : List (String × Service) :=
  [("a", simpleService "a" none none [])]

/-- A process state event as the supervisor delivers it for some process
(here one not belonging to any service in the table, such as the event
listener process itself). -/
def evPS : Event := { eventname := "PROCESS_STATE_STARTING", processname := "x" }

/-- A managed dependency-free service whose single process already reached
RUNNING. -/
def svcC3A : Service :=
  { name := "a", group := "a",
    options := { priorityOpt := none, autostartOpt := some false, dependentStartupOpt := some true,
                 inheritPriorityOpt := none, wait_for_services := [], procnames := ["a"] },
    procs_state := [("a", ["RUNNING"])] }

/-- A managed service waiting for `a` to reach RUNNING. -/
def svcC3B : Service := simpleService "b" none none [("a", ["RUNNING"])]

/-- Table where the dependency of `b` on `a` is already satisfied. -/
def tblC3W : List (String × Service) := [("a", svcC3A), ("b", svcC3B)]

/-- The event announcing that process `a` reached RUNNING. -/
def evARunning : Event := { eventname := "PROCESS_STATE_RUNNING", processname := "a" }

/-- The scheduler state produced by `run` on an empty service table: no
bootstrap candidate exists, so the startup phase is immediately done. -/
def stDone : SchedState := runInit (initState [] [] [])

/-! Theorems -/

/-- C5: `has_reached_states(states)` is true iff there is at least one state
in the given set such that every constituent process of the service has that
state in its own reached-state history (conjunction over processes,
disjunction over candidate states); nothing requires the qualifying states to
have been reached simultaneously, since only per-process membership in the
histories is consulted. -/
theorem claim5_has_reached_states (s : Service) (states : List String) (_hne : states ≠ []) :
    s.has_reached_states states = true ↔
      ∃ st ∈ states, ∀ p ∈ s.procs_state, st ∈ p.2 := by
  unfold Service.has_reached_states
  simp [List.any_eq_true, List.all_eq_true]

/-- Witness for C5 on a concrete two-process service. -/
theorem claim5_witness :
    (["RUNNING"] : List String) ≠ [] ∧
      (svcW5.has_reached_states ["RUNNING"] = true ↔
        ∃ st ∈ ["RUNNING"], ∀ p ∈ svcW5.procs_state, st ∈ p.2) :=
  ⟨by decide, claim5_has_reached_states svcW5 ["RUNNING"] (by decide)⟩

/-- C10: with inheritance off and no dependencies, a declared priority of 0
is treated as unset by the Python truthiness test (`priority_sort` yields the
999 sentinel, `priority_effective` yields `None`), and a declared priority of
999 collides with the sentinel so `priority_effective` is also `None`. -/
theorem claim10_priority_zero_and_sentinel (tbl : List (String × Service)) (fuel : Nat)
    (s : Service) (hinh : s.options.inherit_priority_get = false)
    (_hdeps : s.options.wait_for_services = []) :
    (s.options.priorityOpt = some 0 →
       priority_sortF tbl fuel s = some 999 ∧ priority_effectiveF tbl fuel s = some none) ∧
    (s.options.priorityOpt = some 999 →
       priority_sortF tbl fuel s = some 999 ∧ priority_effectiveF tbl fuel s = some none) := by
  constructor
  · intro hp
    have h1 : priority_sortF tbl fuel s = some 999 := by
      unfold priority_sortF
      simp [hinh, hp, intTruthy]
    exact ⟨h1, by simp [priority_effectiveF, h1]⟩
  · intro hp
    have h1 : priority_sortF tbl fuel s = some 999 := by
      unfold priority_sortF
      simp [hinh, hp, intTruthy]
    exact ⟨h1, by simp [priority_effectiveF, h1]⟩

/-- Witness for C10 on the concrete services with priorities 0 and 999. -/
theorem claim10_witness :
    (priority_sortF [] 0 svcP0 = some 999 ∧ priority_effectiveF [] 0 svcP0 = some none) ∧
      priority_effectiveF [] 0 svcP999 = some none :=
  ⟨(claim10_priority_zero_and_sentinel [] 0 svcP0 rfl rfl).1 rfl,
   ((claim10_priority_zero_and_sentinel [] 0 svcP999 rfl rfl).2 rfl).2⟩

/-- Counterexample to C2: service `a` has the explicit priority 50 and
inheritance enabled; its dependency `b` has priority 10.  The claim states
that when an explicit priority is set the dependencies have no influence, so
`priority_sort` should be 50 — but the code still folds the dependency
priorities in and returns 10. -/
theorem claim2_counterexample :
    svcA50.options.priorityOpt = some 50 ∧ svcA50.options.inherit_priority_get = true ∧
    priority_sortF tblC2 1 svcA50 = some 10 ∧ priority_sortF tblC2 1 svcA50 ≠ some 50 := by
  decide

/-- Helper: the Option-valued fold of the inheritance loop of `priority_sort`
computes the plain minimum over the dependency priorities once every
dependency lookup and recursive priority computation succeeds. -/
theorem foldl_min_of_depPriorities (tbl : List (String × Service)) (fuel : Nat) :
    ∀ (deps : List (String × List String)) (vals : List Int) (a : Int),
      depPriorities tbl fuel deps = some vals →
      deps.foldl
        (fun acc dep =>
          acc.bind (fun x =>
            ((lookupSvc tbl dep.1).bind (fun d => priority_sortF tbl fuel d)).map
              (fun dp => min x dp)))
        (some a) = some (vals.foldl min a) := by
  intro deps
  induction deps with
  | nil =>
    intro vals a h
    simp only [depPriorities, Option.some.injEq] at h
    subst h
    simp
  | cons d ds ih =>
    intro vals a h
    rcases hv : (lookupSvc tbl d.1).bind (fun dd => priority_sortF tbl fuel dd) with _ | v
    · simp [depPriorities, hv] at h
    · rcases hvs : depPriorities tbl fuel ds with _ | vs
      · simp [depPriorities, hv, hvs] at h
      · simp only [depPriorities, hv, hvs, Option.some_bind, Option.map_some',
          Option.some.injEq] at h
        subst h
        simp only [List.foldl_cons, hv, Option.some_bind, Option.map_some']
        exact ih vs (min a v) hvs

/-- C2 amended: `priority_sort` equals the explicit (nonzero) priority, or
999 when unset, only when `inheritPriority` is false.  When `inheritPriority`
is true the result is the minimum of that base value and of the
`priority_sort` of every declared dependency — an explicit priority does not
disable inheritance, the dependencies keep influencing the result. -/
theorem claim2_amended_priority_inheritance (tbl : List (String × Service)) (fuel : Nat)
    (s : Service) (vals : List Int)
    (hres : depPriorities tbl fuel s.options.wait_for_services = some vals) :
    (s.options.inherit_priority_get = false →
       priority_sortF tbl fuel s = some (base_priority s)) ∧
    (s.options.inherit_priority_get = true →
       priority_sortF tbl (fuel + 1) s = some (vals.foldl min (base_priority s))) := by
  constructor
  · intro hinh
    unfold priority_sortF
    simp [hinh, base_priority]
  · intro hinh
    unfold priority_sortF
    simp only [hinh, if_true]
    exact foldl_min_of_depPriorities tbl fuel s.options.wait_for_services vals
      (base_priority s) hres

/-- Witness for the amended C2 on the concrete table: with explicit priority
50 and a dependency of priority 10 the result is `min 50 10 = 10`. -/
theorem claim2_witness :
    depPriorities tblC2 0 svcA50.options.wait_for_services = some [10] ∧
      priority_sortF tblC2 1 svcA50 = some (([10] : List Int).foldl min (base_priority svcA50)) :=
  ⟨by decide,
   (claim2_amended_priority_inheritance tblC2 0 svcA50 [10] (by decide)).2 rfl⟩

/-- Helper: mapping over a successful `Except` value. -/
theorem except_map_ok {α β : Type} (f : α → β) (a : α) :
    (Except.ok a : Except String α).map f = Except.ok (f a) := rfl

/-- Helper: mapping over a failed `Except` value. -/
theorem except_map_error {α β : Type} (f : α → β) (e : String) :
    (Except.error e : Except String α).map f = Except.error e := rfl

/-- Helper: under a non-exit policy the conflict check never fails and
rewrites a service exactly by `disable_on_conflict`. -/
theorem parse_section_check_ok (ea : ErrorAction) (hea : ea ≠ ErrorAction.exit) (s : Service) :
    parse_section_check ea s = Except.ok (disable_on_conflict s) := by
  unfold parse_section_check disable_on_conflict
  cases hd : s.options.dependent_startup_get
  · simp [hd]
  · cases ha : s.options.autostart_get
    · simp [hd, ha]
    · cases ea with
      | exit => exact absurd rfl hea
      | skip => simp [hd, ha]
      | ignore => simp [hd, ha]

/-- Helper: under a non-exit policy the section loop succeeds and maps
`disable_on_conflict` over every service. -/
theorem parse_all_sections_ok (ea : ErrorAction) (hea : ea ≠ ErrorAction.exit) :
    ∀ svcs : List Service,
      parse_all_sections ea svcs = Except.ok (svcs.map disable_on_conflict) := by
  intro svcs
  induction svcs with
  | nil => rfl
  | cons s rest ih =>
    unfold parse_all_sections
    rw [parse_section_check_ok ea hea s, ih]
    rfl

/-- Helper: one failing section makes the whole parse fail. -/
theorem parse_all_sections_error (ea : ErrorAction) :
    ∀ (svcs : List Service) (svc : Service) (e : String), svc ∈ svcs →
      parse_section_check ea svc = Except.error e →
      ∃ msg, parse_all_sections ea svcs = Except.error msg := by
  intro svcs
  induction svcs with
  | nil => intro svc e h; cases h
  | cons s rest ih =>
    intro svc e hmem herr
    unfold parse_all_sections
    rcases hs : parse_section_check ea s with e2 | v
    · exact ⟨e2, rfl⟩
    · rcases List.mem_cons.mp hmem with rfl | hmem2
      · rw [hs] at herr; cases herr
      · obtain ⟨msg, hmsg⟩ := ih svc e hmem2 herr
        exact ⟨msg, by rw [hmsg]; rfl⟩

/-- C9: a parsed service with `dependent_startup` true and `autostart` true
(explicitly, or unset and hence true by default) is a configuration
conflict.  Under policy `exit` the parse of the sections raises a fatal
error; under `skip` or `ignore` the parse succeeds, exactly that service has
its `dependent_startup` option forced to false (so it is no longer managed),
and every service without such a conflict is left unchanged. -/
theorem claim9_autostart_conflict (svcs : List Service) (svc : Service) (hmem : svc ∈ svcs)
    (hds : svc.options.dependent_startup_get = true)
    (hauto : svc.options.autostart_get = true) :
    (∃ msg, parse_all_sections ErrorAction.exit svcs = Except.error msg) ∧
    (∀ pol, pol ≠ ErrorAction.exit →
      parse_all_sections pol svcs = Except.ok (svcs.map disable_on_conflict)) ∧
    (disable_on_conflict svc).options.dependent_startup_get = false ∧
    (∀ s : Service, ¬(s.options.dependent_startup_get = true ∧ s.options.autostart_get = true) →
      disable_on_conflict s = s) := by
  refine ⟨?_, fun pol hpol => parse_all_sections_ok pol hpol svcs, ?_, ?_⟩
  · have herr : parse_section_check ErrorAction.exit svc =
        Except.error ("Service " ++ svc.name ++
          " config has dependent_startup set to True, which requires autostart to be set explicitly to false") := by
      unfold parse_section_check
      simp [hds, hauto]
    exact parse_all_sections_error ErrorAction.exit svcs svc _ hmem herr
  · unfold disable_on_conflict
    rw [hds, hauto]
    simp [ServiceOptions.dependent_startup_get]
  · intro s hs
    unfold disable_on_conflict
    rcases hd : s.options.dependent_startup_get
    · simp
    · rcases ha : s.options.autostart_get
      · simp
      · exact absurd ⟨hd, ha⟩ hs

/-- Witness for C9 on the one-service table whose service sets
`dependent_startup` with `autostart` left unset. -/
theorem claim9_witness :
    (∃ msg, parse_all_sections ErrorAction.exit [conflictSvc] = Except.error msg) ∧
      parse_all_sections ErrorAction.skip [conflictSvc] =
        Except.ok ([conflictSvc].map disable_on_conflict) ∧
      (disable_on_conflict conflictSvc).options.dependent_startup_get = false :=
  ⟨(claim9_autostart_conflict [conflictSvc] conflictSvc (by decide) rfl rfl).1,
   (claim9_autostart_conflict [conflictSvc] conflictSvc (by decide) rfl rfl).2.1
     ErrorAction.skip (by decide),
   (claim9_autostart_conflict [conflictSvc] conflictSvc (by decide) rfl rfl).2.2.1⟩

/-- Helper: under a non-exit policy `verify_service` never fails and filters
the dependencies exactly by `drop_unknown_deps`. -/
theorem verify_service_ok_nonexit (ea : ErrorAction) (hea : ea ≠ ErrorAction.exit)
    (tbl : List (String × Service)) (n : String) (svc : Service) :
    verify_service ea tbl n svc = Except.ok (drop_unknown_deps tbl svc) := by
  unfold verify_service drop_unknown_deps
  simp [hea]

/-- Helper: under a non-exit policy the dependency verification pass succeeds
and rewrites every service by `drop_unknown_deps`. -/
theorem verify_deps_go_ok (ea : ErrorAction) (hea : ea ≠ ErrorAction.exit)
    (tbl : List (String × Service)) :
    ∀ l : List (String × Service),
      verify_deps_go ea tbl l =
        Except.ok (l.map (fun ns => (ns.1, drop_unknown_deps tbl ns.2))) := by
  intro l
  induction l with
  | nil => rfl
  | cons ns rest ih =>
    unfold verify_deps_go
    rw [verify_service_ok_nonexit ea hea tbl ns.1 ns.2, ih]
    rfl

/-- Helper: one failing service makes the whole verification pass fail. -/
theorem verify_deps_go_error (tbl : List (String × Service)) :
    ∀ (l : List (String × Service)) (n : String) (svc : Service) (e : String),
      (n, svc) ∈ l →
      verify_service ErrorAction.exit tbl n svc = Except.error e →
      ∃ msg, verify_deps_go ErrorAction.exit tbl l = Except.error msg := by
  intro l
  induction l with
  | nil => intro n svc e h; cases h
  | cons ns rest ih =>
    intro n svc e hmem herr
    unfold verify_deps_go
    rcases hs : verify_service ErrorAction.exit tbl ns.1 ns.2 with e2 | v
    · exact ⟨e2, rfl⟩
    · rcases List.mem_cons.mp hmem with heq | hmem2
      · subst heq
        rw [herr] at hs
        cases hs
      · obtain ⟨msg, hmsg⟩ := ih n svc e hmem2 herr
        exact ⟨msg, by rw [hmsg]; rfl⟩

/-- C6: a declared dependency name that is not a key of the service table is
fatal under policy `exit`; under `skip` or `ignore` exactly the missing
dependency edges are removed (every dependency on a known service survives,
in order) and every service otherwise stays unchanged. -/
theorem claim6_unknown_dependency (tbl : List (String × Service)) (n : String) (svc : Service)
    (d : String) (sts : List String)
    (hmem : (n, svc) ∈ tbl)
    (hdep : (d, sts) ∈ svc.options.wait_for_services)
    (hmiss : lookupSvc tbl d = none) :
    (∃ msg, verify_dependencies ErrorAction.exit tbl = Except.error msg) ∧
    (∀ pol, pol ≠ ErrorAction.exit →
      verify_dependencies pol tbl =
        Except.ok (tbl.map (fun ns => (ns.1, drop_unknown_deps tbl ns.2)))) ∧
    (∀ sts2, (d, sts2) ∉ (drop_unknown_deps tbl svc).options.wait_for_services) ∧
    (∀ e ∈ svc.options.wait_for_services, (lookupSvc tbl e.1).isSome = true →
      e ∈ (drop_unknown_deps tbl svc).options.wait_for_services) := by
  refine ⟨?_, fun pol hpol => verify_deps_go_ok pol hpol tbl tbl, ?_, ?_⟩
  · have hfind : (svc.options.wait_for_services.find?
        (fun dep => (lookupSvc tbl dep.1).isNone)).isSome := by
      rw [List.find?_isSome]
      exact ⟨(d, sts), hdep, by simp [hmiss]⟩
    obtain ⟨dep, hf⟩ := Option.isSome_iff_exists.mp hfind
    have herr : verify_service ErrorAction.exit tbl n svc =
        Except.error ("Service " ++ n ++ " depends on unknown service " ++ dep.1) := by
      unfold verify_service
      simp [hf]
    exact verify_deps_go_error tbl tbl n svc _ hmem herr
  · intro sts2 hmem2
    unfold drop_unknown_deps at hmem2
    simp only [List.mem_filter] at hmem2
    rw [hmiss] at hmem2
    simp at hmem2
  · intro e he hsome
    unfold drop_unknown_deps
    simp only [List.mem_filter]
    exact ⟨he, hsome⟩

/-- Witness for C6 on the concrete table where service `a` depends on the
unknown `ghost` and on the known `b`. -/
theorem claim6_witness :
    (∃ msg, verify_dependencies ErrorAction.exit tblC6 = Except.error msg) ∧
      verify_dependencies ErrorAction.skip tblC6 =
        Except.ok (tblC6.map (fun ns => (ns.1, drop_unknown_deps tblC6 ns.2))) ∧
      (∀ sts2, ("ghost", sts2) ∉
        (drop_unknown_deps tblC6 svcA6).options.wait_for_services) :=
  ⟨(claim6_unknown_dependency tblC6 "a" svcA6 "ghost" ["RUNNING"]
      (by decide) (by decide) rfl).1,
   (claim6_unknown_dependency tblC6 "a" svcA6 "ghost" ["RUNNING"]
      (by decide) (by decide) rfl).2.1 ErrorAction.skip (by decide),
   (claim6_unknown_dependency tblC6 "a" svcA6 "ghost" ["RUNNING"]
      (by decide) (by decide) rfl).2.2.1⟩

/-- Helper: with pairwise distinct keys, a key determines its value. -/
theorem nodup_keys_eq {β : Type} {l : List (String × β)} (h : keysNodup l) {k : String}
    {a b : β} (ha : (k, a) ∈ l) (hb : (k, b) ∈ l) : a = b := by
  induction l with
  | nil => cases ha
  | cons kd rest ih =>
    have hnd : kd.1 ∉ rest.map Prod.fst ∧ keysNodup rest := by
      simpa [keysNodup] using h
    rcases List.mem_cons.mp ha with ha1 | ha2
    · rcases List.mem_cons.mp hb with hb1 | hb2
      · rw [← ha1] at hb1
        injection hb1 with h1 h2
        exact h2.symm
      · exfalso
        apply hnd.1
        rw [← ha1]
        exact List.mem_map.mpr ⟨(k, b), hb2, rfl⟩
    · rcases List.mem_cons.mp hb with hb1 | hb2
      · exfalso
        apply hnd.1
        rw [← hb1]
        exact List.mem_map.mpr ⟨(k, a), ha2, rfl⟩
      · exact ih hnd.2 ha2 hb2

/-- Helper: discarding self dependencies does not change the keys. -/
theorem selfDiscard_keys (data : List (String × List String)) :
    (selfDiscard data).map Prod.fst = data.map Prod.fst := by
  induction data with
  | nil => rfl
  | cons kd rest ih => simp only [selfDiscard, List.map_cons] at ih ⊢; rw [ih]

/-- Helper: discarding self dependencies preserves the closed-keys property. -/
theorem selfDiscard_sub (data : List (String × List String))
    (hsub : depsSubsetKeys data) : depsSubsetKeys (selfDiscard data) := by
  intro kd hkd d hd
  rw [selfDiscard_keys]
  unfold selfDiscard at hkd
  obtain ⟨kd0, hkd0, rfl⟩ := List.mem_map.mp hkd
  exact hsub kd0 hkd0 d (List.mem_of_mem_filter hd)

/-- Helper: when every dependency is a key, the `toposort` library adds no
extra items. -/
theorem extraItems_nil_of_sub (data : List (String × List String))
    (hsub : depsSubsetKeys data) : extraItems data = [] := by
  unfold extraItems
  have : ((data.map Prod.snd).flatten.filter
      (fun d => !((data.map Prod.fst).contains d))) = [] := by
    rw [List.filter_eq_nil_iff]
    intro a ha
    obtain ⟨l, hl, hal⟩ := List.mem_flatten.mp ha
    obtain ⟨kd, hkd, rfl⟩ := List.mem_map.mp hl
    have := hsub kd hkd a hal
    simp [this]
  rw [this]
  rfl

/-- Helper: the layered topological sort is sound.  For any
membership-preserving per-layer rewriting `sortL`, a successful run on data
with distinct keys, no self dependencies and dependencies closed under the
keys, places every key in the flattened output and places every dependency
strictly before its dependent. -/
theorem toposort_invariant (sortL : List String → List String)
    (hf : ∀ (xs : List String) (a : String), a ∈ sortL xs ↔ a ∈ xs) :
    ∀ (fuel : Nat) (data : List (String × List String)) (layers : List (List String)),
      keysNodup data →
      (∀ kd ∈ data, kd.1 ∉ kd.2) →
      depsSubsetKeys data →
      toposortLayers fuel data = some layers →
      (∀ kd ∈ data, kd.1 ∈ (layers.map sortL).flatten) ∧
      (∀ kd ∈ data, ∀ d ∈ kd.2,
        (layers.map sortL).flatten.indexOf d < (layers.map sortL).flatten.indexOf kd.1) := by
  intro fuel
  induction fuel with
  | zero =>
    intro data layers hnd hself hsub h
    cases data with
    | nil =>
      cases h
      exact ⟨fun kd hkd => absurd hkd (List.not_mem_nil kd),
             fun kd hkd => absurd hkd (List.not_mem_nil kd)⟩
    | cons x xs => cases h
  | succ fuel ih =>
    intro data layers hnd hself hsub h
    cases data with
    | nil =>
      cases h
      exact ⟨fun kd hkd => absurd hkd (List.not_mem_nil kd),
             fun kd hkd => absurd hkd (List.not_mem_nil kd)⟩
    | cons x xs =>
      simp only [toposortLayers] at h
      set D := x :: xs with hD
      set O := (D.filter (fun kd => kd.2.isEmpty)).map Prod.fst with hO
      set R := (D.filter (fun kd => !(O.contains kd.1))).map
        (fun kd => (kd.1, kd.2.filter (fun d => !(O.contains d)))) with hR
      by_cases hOe : O.isEmpty
      · rw [if_pos hOe] at h
        cases h
      · rw [if_neg hOe] at h
        obtain ⟨layers2, hl2, rfl⟩ := Option.map_eq_some'.mp h
        -- preconditions for the remaining data
        have hndR : keysNodup R := by
          have hkeys : R.map Prod.fst = (D.filter (fun kd => !(O.contains kd.1))).map Prod.fst := by
            rw [hR, List.map_map]
            rfl
          have hsubl : List.Sublist
              ((D.filter (fun kd => !(O.contains kd.1))).map Prod.fst) (D.map Prod.fst) :=
            List.Sublist.map Prod.fst (List.filter_sublist D)
          show (R.map Prod.fst).Nodup
          rw [hkeys]
          exact List.Nodup.sublist hsubl hnd
        have hselfR : ∀ kd ∈ R, kd.1 ∉ kd.2 := by
          intro kd hkd
          obtain ⟨kd0, hkd0, rfl⟩ := List.mem_map.mp hkd
          intro hmem
          exact hself kd0 (List.mem_of_mem_filter hkd0) (List.mem_of_mem_filter hmem)
        have hsubR : depsSubsetKeys R := by
          intro kd hkd d hd
          obtain ⟨kd0, hkd0, rfl⟩ := List.mem_map.mp hkd
          have hd2 := List.mem_filter.mp hd
          have hdK : d ∈ D.map Prod.fst :=
            hsub kd0 (List.mem_of_mem_filter hkd0) d hd2.1
          obtain ⟨e, he, rfl⟩ := List.mem_map.mp hdK
          have heR : e ∈ D.filter (fun kd => !(O.contains kd.1)) :=
            List.mem_filter.mpr ⟨he, hd2.2⟩
          apply List.mem_map.mpr
          exact ⟨(e.1, e.2.filter (fun d => !(O.contains d))),
                 List.mem_map.mpr ⟨e, heR, rfl⟩, rfl⟩
        obtain ⟨ihA, ihB⟩ := ih R layers2 hndR hselfR hsubR hl2
        -- shape of the flattened output
        have hflat : ((O :: layers2).map sortL).flatten =
            sortL O ++ (layers2.map sortL).flatten := by
          simp
        -- membership in the remaining data for keys outside the first layer
        have hmemR : ∀ kd, kd ∈ D → kd.1 ∉ O →
            (kd.1, kd.2.filter (fun d => !(O.contains d))) ∈ R := by
          intro kd hkd hkO
          apply List.mem_map.mpr
          refine ⟨kd, List.mem_filter.mpr ⟨hkd, ?_⟩, rfl⟩
          simpa using hkO
        -- keys in the first layer have no dependencies left
        have hOempty : ∀ kd, kd ∈ D → kd.1 ∈ O → kd.2 = [] := by
          intro kd hkd hkO
          obtain ⟨kd0, hkd0, hfst⟩ := List.mem_map.mp hkO
          have h0 := List.mem_filter.mp hkd0
          have : kd.2 = kd0.2 := by
            have hkd' : (kd0.1, kd.2) ∈ D := by
              rw [hfst]
              exact (Prod.mk.eta ▸ hkd)
            exact nodup_keys_eq hnd hkd' (Prod.mk.eta ▸ h0.1)
          rw [this]
          exact List.isEmpty_iff.mp h0.2
        constructor
        · intro kd hkd
          rw [hflat]
          by_cases hkO : kd.1 ∈ O
          · exact List.mem_append_left _ ((hf O kd.1).mpr hkO)
          · refine List.mem_append_right _ ?_
            exact ihA (kd.1, kd.2.filter (fun d => !(O.contains d))) (hmemR kd hkd hkO)
        · intro kd hkd d hd
          have hkO : kd.1 ∉ O := by
            intro hin
            rw [hOempty kd hkd hin] at hd
            cases hd
          have hks : kd.1 ∉ sortL O := fun hc => hkO ((hf O kd.1).mp hc)
          rw [hflat]
          by_cases hdO : d ∈ O
          · have hds : d ∈ sortL O := (hf O d).mpr hdO
            rw [List.indexOf_append_of_mem hds, List.indexOf_append_of_not_mem hks]
            calc List.indexOf d (sortL O) < (sortL O).length := List.indexOf_lt_length.mpr hds
              _ ≤ (sortL O).length + _ := Nat.le_add_right _ _
          · have hds : d ∉ sortL O := fun hc => hdO ((hf O d).mp hc)
            rw [List.indexOf_append_of_not_mem hds, List.indexOf_append_of_not_mem hks]
            apply Nat.add_lt_add_left
            have hdmem : d ∈ kd.2.filter (fun e => !(O.contains e)) := by
              refine List.mem_filter.mpr ⟨hd, ?_⟩
              simpa using hdO
            exact ihB (kd.1, kd.2.filter (fun e => !(O.contains e))) (hmemR kd hkd hkO) d hdmem

/-- Helper: along a dependency chain, a rank that strictly decreases over
every edge strictly decreases from the head to the final element. -/
theorem chain_rank_descent (data : List (String × List String)) (rank : String → Nat)
    (h : ∀ kd ∈ data, ∀ d ∈ kd.2, rank d < rank kd.1) :
    ∀ (xs : List String) (x y : String), chainEdges data (x :: xs ++ [y]) → rank y < rank x := by
  intro xs
  induction xs with
  | nil =>
    intro x y hch
    have h1 : Edge data x y ∧ chainEdges data [y] := hch
    obtain ⟨kd, hkd, hfst, hmem⟩ := h1.1
    rw [← hfst]
    exact h kd hkd y hmem
  | cons z zs ih =>
    intro x y hch
    rw [List.cons_append] at hch
    have h1 : Edge data x z ∧ chainEdges data (z :: zs ++ [y]) := hch
    obtain ⟨kd, hkd, hfst, hmem⟩ := h1.1
    have h2 : rank z < rank x := by
      rw [← hfst]
      exact h kd hkd z hmem
    exact lt_trans (ih z y h1.2) h2

/-- Helper: a rank that strictly decreases over every dependency edge rules
out any cyclic dependency walk. -/
theorem no_cycle_of_rank (data : List (String × List String)) (rank : String → Nat)
    (h : ∀ kd ∈ data, ∀ d ∈ kd.2, rank d < rank kd.1) : ¬ hasCycle data := by
  rintro ⟨a, rest, hch⟩
  exact lt_irrefl _ (chain_rank_descent data rank h rest a a hch)

/-- Helper: along a dependency chain whose adjacent elements are distinct, a
rank that strictly decreases over the edges between distinct services
strictly decreases from the head to the final element. -/
theorem chain_rank_descent_cd (data : List (String × List String)) (rank : String → Nat)
    (h : ∀ u v, u ≠ v → Edge data u v → rank v < rank u) :
    ∀ (xs : List String) (x y : String), chainEdges data (x :: xs ++ [y]) →
      consecDistinct (x :: xs ++ [y]) → rank y < rank x := by
  intro xs
  induction xs with
  | nil =>
    intro x y hch hcd
    have h1 : Edge data x y ∧ chainEdges data [y] := hch
    have h2 : x ≠ y ∧ consecDistinct [y] := hcd
    exact h x y h2.1 h1.1
  | cons z zs ih =>
    intro x y hch hcd
    rw [List.cons_append] at hch hcd
    have h1 : Edge data x z ∧ chainEdges data (z :: zs ++ [y]) := hch
    have h2 : x ≠ z ∧ consecDistinct (z :: zs ++ [y]) := hcd
    exact lt_trans (ih z y h1.2 h2.2) (h x z h2.1 h1.1)

/-- Helper: building the dependency dictionary does not change the keys. -/
theorem depsOf_keys (tbl : List (String × Service)) :
    (depsOf tbl).map Prod.fst = tbl.map Prod.fst := by
  induction tbl with
  | nil => rfl
  | cons kd rest ih => simp only [depsOf, List.map_cons] at ih ⊢; rw [ih]

/-- Helper: the discarded dependency dictionary of a table with distinct keys
has distinct keys. -/
theorem selfDiscard_nodup (tbl : List (String × Service)) (h : keysNodup tbl) :
    keysNodup (selfDiscard (depsOf tbl)) := by
  show ((selfDiscard (depsOf tbl)).map Prod.fst).Nodup
  rw [selfDiscard_keys, depsOf_keys]
  exact h

/-- Helper: after the discard step no item depends on itself. -/
theorem selfDiscard_noself (data : List (String × List String)) :
    ∀ kd ∈ selfDiscard data, kd.1 ∉ kd.2 := by
  intro kd hkd
  obtain ⟨kd0, hkd0, rfl⟩ := List.mem_map.mp hkd
  intro hmem
  have := (List.mem_filter.mp hmem).2
  simp at this

/-- Helper: membership is preserved by stable insertion. -/
theorem mem_insertSorted {α : Type} (lt : α → α → Bool) (x a : α) :
    ∀ l : List α, a ∈ insertSorted lt x l ↔ a = x ∨ a ∈ l := by
  intro l
  induction l with
  | nil => simp [insertSorted]
  | cons y ys ih =>
    unfold insertSorted
    cases h : lt y x
    · simp only [Bool.false_eq_true, if_false, List.mem_cons]
    · simp only [if_true, List.mem_cons, ih]
      tauto

/-- Helper: membership is preserved by the stable sort. -/
theorem mem_sortBy {α : Type} (lt : α → α → Bool) (a : α) :
    ∀ l : List α, a ∈ sortBy lt l ↔ a ∈ l := by
  intro l
  induction l with
  | nil => exact Iff.rfl
  | cons x xs ih =>
    unfold sortBy
    rw [mem_insertSorted]
    simp [ih]

/-- Helper: sorting a layer by priority and name does not change its
membership. -/
theorem sortLayer_mem (tbl : List (String × Service)) :
    ∀ (xs : List String) (a : String), a ∈ sortLayer tbl xs ↔ a ∈ xs := by
  intro xs a
  unfold sortLayer
  rw [mem_sortBy]

/-- C1: on a table with distinct keys whose dependencies were all validated
(every dependency name is a key) and whose dependency relation is acyclic,
any canonical order returned by `get_sorted_services_list` is a valid
topological order: every declared dependency of a service occurs strictly
earlier in the list than the service itself. -/
theorem claim1_topological_order (tbl : List (String × Service)) (l : List String)
    (hnodup : keysNodup tbl)
    (hsub : depsSubsetKeys (depsOf tbl))
    (hacyc : ¬ hasCycle (depsOf tbl))
    (hok : get_sorted_services_list tbl = Except.ok l) :
    ∀ k svc, (k, svc) ∈ tbl → ∀ dep ∈ svc.options.wait_for_services,
      l.indexOf dep.1 < l.indexOf k := by
  intro k svc hmem dep hdep
  have hsub0 : depsSubsetKeys (selfDiscard (depsOf tbl)) := selfDiscard_sub _ hsub
  have hext : extraItems (selfDiscard (depsOf tbl)) = [] := extraItems_nil_of_sub _ hsub0
  unfold get_sorted_services_list at hok
  simp only [hext, List.map_nil, List.append_nil] at hok
  rcases htl : toposortLayers ((selfDiscard (depsOf tbl)).length + 1)
      (selfDiscard (depsOf tbl)) with _ | layers
  · rw [htl] at hok
    cases hok
  · rw [htl] at hok
    have hl : (layers.map (sortLayer tbl)).flatten = l := by
      injection hok
    obtain ⟨-, hinvB⟩ := toposort_invariant (sortLayer tbl) (sortLayer_mem tbl)
      ((selfDiscard (depsOf tbl)).length + 1) (selfDiscard (depsOf tbl)) layers
      (selfDiscard_nodup tbl hnodup) (selfDiscard_noself _) hsub0 htl
    have hdne : dep.1 ≠ k := by
      intro heq
      apply hacyc
      refine ⟨k, [], ?_⟩
      show Edge (depsOf tbl) k k ∧ True
      refine ⟨⟨(k, svc.options.wait_for_services.map Prod.fst),
        List.mem_map.mpr ⟨(k, svc), hmem, rfl⟩, rfl, ?_⟩, trivial⟩
      rw [← heq]
      exact List.mem_map.mpr ⟨dep, hdep, rfl⟩
    have hentry : (k, (svc.options.wait_for_services.map Prod.fst).filter
        (fun d => !(d == k))) ∈ selfDiscard (depsOf tbl) :=
      List.mem_map.mpr ⟨(k, svc.options.wait_for_services.map Prod.fst),
        List.mem_map.mpr ⟨(k, svc), hmem, rfl⟩, rfl⟩
    have hdmem : dep.1 ∈ (svc.options.wait_for_services.map Prod.fst).filter
        (fun d => !(d == k)) := by
      refine List.mem_filter.mpr ⟨List.mem_map.mpr ⟨dep, hdep, rfl⟩, ?_⟩
      simpa using hdne
    have := hinvB _ hentry dep.1 hdmem
    rwa [hl] at this

/-- Witness for C1 on the acyclic two-service table: the canonical order is
`b` before `a`, and the dependency `b` of `a` indeed occurs earlier. -/
theorem claim1_witness :
    (["b", "a"] : List String).indexOf "b" < (["b", "a"] : List String).indexOf "a" :=
  claim1_topological_order tblW1 ["b", "a"] (by decide) (by decide)
    (no_cycle_of_rank _ (fun s => if s = "a" then 1 else 0) (by decide))
    (by decide) "a" (simpleService "a" none none [("b", ["RUNNING"])]) (by decide)
    ("b", ["RUNNING"]) (by decide)

/-- Counterexample to C4: the dependency relation of `tblSelf` contains a
cycle (the service `a` depends on itself), yet `get_sorted_services_list`
does not raise — the `toposort` library discards self dependencies, so a
canonical order is produced. -/
theorem claim4_counterexample :
    hasCycle (depsOf tblSelf) ∧ get_sorted_services_list tblSelf = Except.ok ["a"] :=
  ⟨⟨"a", [], by decide⟩, by decide⟩

/-- C4 amended: a circular dependency among at least two distinct services
(a closed dependency walk whose adjacent services are distinct) always makes
`get_sorted_services_list` raise the fatal error, for every value of the
error policy — the policy is not consulted at all during the sort.  Self
dependencies, by contrast, are silently discarded (see the counterexample). -/
theorem claim4_amended_cycle_fatal (_pol : ErrorAction) (tbl : List (String × Service))
    (a : String) (rest : List String)
    (hnodup : keysNodup tbl)
    (hsub : depsSubsetKeys (depsOf tbl))
    (hchain : chainEdges (depsOf tbl) (a :: rest ++ [a]))
    (hcd : consecDistinct (a :: rest ++ [a])) :
    get_sorted_services_list tbl = Except.error "Circular dependencies detected" := by
  have hsub0 : depsSubsetKeys (selfDiscard (depsOf tbl)) := selfDiscard_sub _ hsub
  have hext : extraItems (selfDiscard (depsOf tbl)) = [] := extraItems_nil_of_sub _ hsub0
  unfold get_sorted_services_list
  simp only [hext, List.map_nil, List.append_nil]
  rcases htl : toposortLayers ((selfDiscard (depsOf tbl)).length + 1)
      (selfDiscard (depsOf tbl)) with _ | layers
  · rfl
  · exfalso
    obtain ⟨-, hinvB⟩ := toposort_invariant (sortLayer tbl) (sortLayer_mem tbl)
      ((selfDiscard (depsOf tbl)).length + 1) (selfDiscard (depsOf tbl)) layers
      (selfDiscard_nodup tbl hnodup) (selfDiscard_noself _) hsub0 htl
    have hdec : ∀ u v, u ≠ v → Edge (depsOf tbl) u v →
        (layers.map (sortLayer tbl)).flatten.indexOf v <
          (layers.map (sortLayer tbl)).flatten.indexOf u := by
      intro u v huv hedge
      obtain ⟨kd, hkd, hfst, hv⟩ := hedge
      subst hfst
      have hentry : (kd.1, kd.2.filter (fun d => !(d == kd.1))) ∈ selfDiscard (depsOf tbl) :=
        List.mem_map.mpr ⟨kd, hkd, rfl⟩
      have hvmem : v ∈ kd.2.filter (fun d => !(d == kd.1)) := by
        refine List.mem_filter.mpr ⟨hv, ?_⟩
        simpa using Ne.symm huv
      exact hinvB _ hentry v hvmem
    exact lt_irrefl _ (chain_rank_descent_cd (depsOf tbl)
      (fun s => (layers.map (sortLayer tbl)).flatten.indexOf s) hdec rest a a hchain hcd)

/-- Witness for the amended C4 on the two-service cycle `a` waits for `b`
waits for `a`. -/
theorem claim4_witness :
    get_sorted_services_list tblCyc = Except.error "Circular dependencies detected" :=
  claim4_amended_cycle_fatal ErrorAction.skip tblCyc "a" ["b"]
    (by decide) (by decide) (by decide) (by decide)

/-! Projection lemmas: the cached-view refreshes touch only `procInfo` and
`snaps`. -/

/-- Helper: a full view refresh leaves the service table unchanged. -/
theorem upif_services (st : SchedState) : (update_proc_info_full st).services = st.services := by
  rcases hsn : st.snaps with _ | ⟨s, rest⟩ <;> simp [update_proc_info_full, popSnap, hsn]

/-- Helper: a full view refresh leaves the bootstrap marker unchanged. -/
theorem upif_startFirst (st : SchedState) :
    (update_proc_info_full st).startFirst = st.startFirst := by
  rcases hsn : st.snaps with _ | ⟨s, rest⟩ <;> simp [update_proc_info_full, popSnap, hsn]

/-- Helper: a full view refresh leaves the done flag unchanged. -/
theorem upif_startupDone (st : SchedState) :
    (update_proc_info_full st).startupDone = st.startupDone := by
  rcases hsn : st.snaps with _ | ⟨s, rest⟩ <;> simp [update_proc_info_full, popSnap, hsn]

/-- Helper: a targeted view refresh leaves the service table unchanged. -/
theorem upis_services (st : SchedState) (svc : Service) :
    (update_proc_info_service st svc).services = st.services := by
  rcases hsn : st.snaps with _ | ⟨s, rest⟩ <;> simp [update_proc_info_service, popSnap, hsn]

/-- Helper: a targeted view refresh leaves the bootstrap marker unchanged. -/
theorem upis_startFirst (st : SchedState) (svc : Service) :
    (update_proc_info_service st svc).startFirst = st.startFirst := by
  rcases hsn : st.snaps with _ | ⟨s, rest⟩ <;> simp [update_proc_info_service, popSnap, hsn]

/-- Helper: a targeted view refresh leaves the done flag unchanged. -/
theorem upis_startupDone (st : SchedState) (svc : Service) :
    (update_proc_info_service st svc).startupDone = st.startupDone := by
  rcases hsn : st.snaps with _ | ⟨s, rest⟩ <;> simp [update_proc_info_service, popSnap, hsn]

/-- Helper: `start_service` leaves table, marker and done flag unchanged and
returns a record carrying exactly the service it was passed. -/
theorem start_service_proj (st : SchedState) (svc : Service) :
    (start_service st svc).1.services = st.services ∧
    (start_service st svc).1.startFirst = st.startFirst ∧
    (start_service st svc).1.startupDone = st.startupDone ∧
    (start_service st svc).2.service = svc := by
  unfold start_service
  by_cases h : is_startable (update_proc_info_service st svc).procInfo svc <;>
    simp [h, upis_services, upis_startFirst, upis_startupDone]

/-- Helper: the per-service refresh fold leaves table, marker and done flag
unchanged. -/
theorem refresh_fold_proj (l : List (String × Service)) :
    ∀ st : SchedState,
      (l.foldl refresh_step st).services = st.services ∧
      (l.foldl refresh_step st).startFirst = st.startFirst ∧
      (l.foldl refresh_step st).startupDone = st.startupDone := by
  induction l with
  | nil => intro st; exact ⟨rfl, rfl, rfl⟩
  | cons ns rest ih =>
    intro st
    simp only [List.foldl_cons]
    refine ⟨?_, ?_, ?_⟩
    · rw [(ih (refresh_step st ns)).1]
      exact upis_services st ns.2
    · rw [(ih (refresh_step st ns)).2.1]
      exact upis_startFirst st ns.2
    · rw [(ih (refresh_step st ns)).2.2]
      exact upis_startupDone st ns.2

/-- Helper: the collection loop of `start_services` leaves table, marker and
done flag unchanged. -/
theorem to_be_fold_proj (l : List (String × Service)) :
    ∀ p : SchedState × List (String × Service),
      (l.foldl to_be_step p).1.services = p.1.services ∧
      (l.foldl to_be_step p).1.startFirst = p.1.startFirst ∧
      (l.foldl to_be_step p).1.startupDone = p.1.startupDone := by
  induction l with
  | nil => intro p; exact ⟨rfl, rfl, rfl⟩
  | cons ns rest ih =>
    intro p
    simp only [List.foldl_cons]
    have hstep : (to_be_step p ns).1.services = p.1.services ∧
        (to_be_step p ns).1.startFirst = p.1.startFirst ∧
        (to_be_step p ns).1.startupDone = p.1.startupDone := by
      unfold to_be_step
      by_cases h1 : ns.2.options.dependent_startup_get
      · by_cases h2 : is_service_done ns.2 <;>
          simp [h1, h2, upis_services, upis_startFirst, upis_startupDone]
      · simp [h1]
    obtain ⟨ih1, ih2, ih3⟩ := ih (to_be_step p ns)
    exact ⟨ih1.trans hstep.1, ih2.trans hstep.2.1, ih3.trans hstep.2.2⟩

/-- Helper: every service collected by the loop of `start_services` comes
from the accumulator or is a managed, not yet done service of the list. -/
theorem to_be_fold_mem (l : List (String × Service)) :
    ∀ (p : SchedState × List (String × Service)) (ns : String × Service),
      ns ∈ (l.foldl to_be_step p).2 →
      ns ∈ p.2 ∨ (ns ∈ l ∧ ns.2.options.dependent_startup_get = true ∧
        is_service_done ns.2 = false) := by
  induction l with
  | nil => intro p ns h; exact Or.inl h
  | cons e rest ih =>
    intro p ns h
    simp only [List.foldl_cons] at h
    rcases ih (to_be_step p e) ns h with hacc | ⟨hmem, hdep, hdone⟩
    · unfold to_be_step at hacc
      by_cases h1 : e.2.options.dependent_startup_get
      · by_cases h2 : is_service_done e.2
        · simp only [h1, Bool.not_true, Bool.false_eq_true, if_false, h2, if_true] at hacc
          exact Or.inl hacc
        · simp only [h1, Bool.not_true, Bool.false_eq_true, if_false, h2, if_false,
            List.mem_append, List.mem_singleton] at hacc
          rcases hacc with hacc | rfl
          · exact Or.inl hacc
          · exact Or.inr ⟨List.mem_cons_self _ _, h1, Bool.not_eq_true _ ▸ h2⟩
      · simp only [h1, Bool.not_false, if_true] at hacc
        exact Or.inl hacc
    · exact Or.inr ⟨List.mem_cons_of_mem e hmem, hdep, hdone⟩

/-- Helper: the start loop of `start_services` leaves table, marker and done
flag unchanged. -/
theorem start_fold_proj (l : List (String × Service)) :
    ∀ p : SchedState × List StartRec,
      (l.foldl start_step p).1.services = p.1.services ∧
      (l.foldl start_step p).1.startFirst = p.1.startFirst ∧
      (l.foldl start_step p).1.startupDone = p.1.startupDone := by
  induction l with
  | nil => intro p; exact ⟨rfl, rfl, rfl⟩
  | cons ns rest ih =>
    intro p
    simp only [List.foldl_cons]
    obtain ⟨hs, hf, hd, -⟩ := start_service_proj p.1 ns.2
    obtain ⟨ih1, ih2, ih3⟩ := ih (start_step p ns)
    exact ⟨ih1.trans hs, ih2.trans hf, ih3.trans hd⟩

/-- Helper: every record emitted by the start loop comes from the accumulator
or carries the service of one of the list entries. -/
theorem start_fold_mem (l : List (String × Service)) :
    ∀ (p : SchedState × List StartRec) (r : StartRec),
      r ∈ (l.foldl start_step p).2 →
      r ∈ p.2 ∨ ∃ ns ∈ l, r.service = ns.2 := by
  induction l with
  | nil => intro p r h; exact Or.inl h
  | cons e rest ih =>
    intro p r h
    simp only [List.foldl_cons] at h
    rcases ih (start_step p e) r h with hacc | ⟨ns, hns, hsvc⟩
    · unfold start_step at hacc
      simp only [List.mem_append, List.mem_singleton] at hacc
      rcases hacc with hacc | rfl
      · exact Or.inl hacc
      · exact Or.inr ⟨e, List.mem_cons_self _ _, (start_service_proj p.1 e.2).2.2.2⟩
    · exact Or.inr ⟨ns, List.mem_cons_of_mem e hns, hsvc⟩

/-- Helper: `start_services` never changes the service table or the
bootstrap marker, and every service it passes to `start_service` is managed
(`dependent_startup` true) and has all its dependencies satisfied in the
current table. -/
theorem start_services_spec (st : SchedState) :
    (start_services st).1.services = st.services ∧
    (start_services st).1.startFirst = st.startFirst ∧
    ∀ r ∈ (start_services st).2,
      r.service.options.dependent_startup_get = true ∧
      service_wait_for_satisifed st.services r.service = true := by
  obtain ⟨hr1, hr2, hr3⟩ := refresh_fold_proj st.services st
  obtain ⟨ht1, ht2, ht3⟩ :=
    to_be_fold_proj (st.services.foldl refresh_step st).services
      (st.services.foldl refresh_step st, [])
  unfold start_services
  by_cases he : ((st.services.foldl refresh_step st).services.foldl to_be_step
      (st.services.foldl refresh_step st, [])).2.isEmpty
  · simp only [he, if_true]
    refine ⟨?_, ?_, ?_⟩
    · show ((st.services.foldl refresh_step st).services.foldl to_be_step
        (st.services.foldl refresh_step st, [])).1.services = st.services
      rw [ht1]
      exact hr1
    · show ((st.services.foldl refresh_step st).services.foldl to_be_step
        (st.services.foldl refresh_step st, [])).1.startFirst = st.startFirst
      rw [ht2]
      exact hr2
    · intro r hr
      cases hr
  · simp only [he, Bool.false_eq_true, if_false]
    set st1 := st.services.foldl refresh_step st with hst1
    set pTB := st1.services.foldl to_be_step (st1, []) with hpTB
    set eligible := pTB.2.filter (fun ns =>
      is_startable pTB.1.procInfo ns.2 && service_wait_for_satisifed pTB.1.services ns.2)
      with helig
    set sorted := sortBy (fun a b =>
      optPriorityLt (priority_effectiveT pTB.1.services (pTB.1.services.length + 1) a.2)
        (priority_effectiveT pTB.1.services (pTB.1.services.length + 1) b.2)) eligible
      with hsorted
    obtain ⟨hf1, hf2, hf3⟩ := start_fold_proj sorted (pTB.1, [])
    refine ⟨?_, ?_, ?_⟩
    · rw [hf1, ht1, hr1]
    · rw [hf2, ht2, hr2]
    · intro r hrec
      rcases start_fold_mem sorted (pTB.1, []) r hrec with hnil | ⟨ns, hns, hsvc⟩
      · cases hnil
      · rw [hsorted, mem_sortBy] at hns
        rw [helig, List.mem_filter] at hns
        obtain ⟨hto, hpred⟩ := hns
        rcases to_be_fold_mem st1.services (st1, []) ns hto with hnil2 | ⟨-, hdep, -⟩
        · cases hnil2
        · rw [Bool.and_eq_true] at hpred
          have hsat : service_wait_for_satisifed st.services ns.2 = true := by
            have := hpred.2
            rwa [ht1, hr1] at this
          rw [hsvc]
          exact ⟨hdep, hsat⟩

/-- Helper: once `startup_done` holds, `handle_event` returns immediately
with no state change and no start call. -/
theorem handle_event_done (st : SchedState) (ev : Event) (h : st.startupDone = true) :
    handle_event st ev = (st, []) := by
  unfold handle_event
  simp [h]

/-- Helper: an event that is not a process state change causes no state
change and no start call. -/
theorem handle_event_nonps (st : SchedState) (ev : Event)
    (h : strStartsWith ev.eventname "PROCESS_STATE" = false) :
    handle_event st ev = (st, []) := by
  unfold handle_event
  by_cases hd : st.startupDone <;> simp [hd, h]

/-- Helper: description of the bootstrap-start step followed by the ordinary
start pass, for an arbitrary scheduler state `B`.  The service table is
unchanged, the bootstrap marker is always cleared, a pending candidate that
resolves in the table is the first service started, and every start call is
either that bootstrap start or a start of a managed service whose
dependencies are satisfied. -/
theorem boot_and_start_spec (B : SchedState) :
    (boot_and_start B).1.services = B.services ∧
    (boot_and_start B).1.startFirst = none ∧
    (∀ n svc, B.startFirst = some n → lookupSvc B.services n = some svc →
      ((boot_and_start B).2.head?).map (fun r => r.service) = some svc) ∧
    (∀ r ∈ (boot_and_start B).2,
      (∃ n svc, B.startFirst = some n ∧ lookupSvc B.services n = some svc ∧ r.service = svc) ∨
      (r.service.options.dependent_startup_get = true ∧
        service_wait_for_satisifed B.services r.service = true)) := by
  unfold boot_and_start
  rcases hsf : B.startFirst with _ | n
  · dsimp only
    obtain ⟨hs1, hs2, hs3⟩ := start_services_spec B
    refine ⟨hs1, by rw [hs2, hsf], ?_, ?_⟩
    · intro n svc hcontra
      cases hcontra
    · intro r hr
      simp only [List.nil_append] at hr
      exact Or.inr (hs3 r hr)
  · dsimp only
    rcases hlk : lookupSvc B.services n with _ | svc
    · dsimp only
      obtain ⟨hs1, hs2, hs3⟩ := start_services_spec { B with startFirst := none }
      refine ⟨hs1, by rw [hs2], ?_, ?_⟩
      · intro n2 svc2 hn2 hlk2
        injection hn2 with hn2e
        rw [← hn2e, hlk] at hlk2
        cases hlk2
      · intro r hr
        simp only [List.nil_append] at hr
        exact Or.inr (hs3 r hr)
    · dsimp only
      obtain ⟨hc1, hc2, hc3, hc4⟩ := start_service_proj B svc
      have hDserv : (update_proc_info_service (start_service B svc).1 svc).services
          = B.services := by
        rw [upis_services, hc1]
      obtain ⟨hs1, hs2, hs3⟩ := start_services_spec
        { update_proc_info_service (start_service B svc).1 svc with startFirst := none }
      refine ⟨by rw [hs1]; exact hDserv, by rw [hs2], ?_, ?_⟩
      · intro n2 svc2 hn2 hlk2
        injection hn2 with hn2e
        rw [← hn2e, hlk] at hlk2
        injection hlk2 with hlk2e
        simp only [List.cons_append, List.head?_cons, Option.map_some']
        rw [hc4, hlk2e]
      · intro r hr
        simp only [List.cons_append, List.nil_append, List.mem_cons] at hr
        rcases hr with rfl | hr
        · exact Or.inl ⟨n, svc, rfl, hlk, hc4⟩
        · right
          have := hs3 r hr
          rwa [show ({ update_proc_info_service (start_service B svc).1 svc
              with startFirst := none } : SchedState).services = B.services from hDserv]
            at this

/-- Helper: full description of `handle_event` on a process state event while
the startup phase is active, in terms of the original state. -/
theorem handle_event_ps_spec (st : SchedState) (ev : Event)
    (hd : st.startupDone = false) (hps : strStartsWith ev.eventname "PROCESS_STATE" = true) :
    (handle_event st ev).1.services =
        update_state_event st.services ev.processname (stateOfEvent ev) ∧
    (handle_event st ev).1.startFirst = none ∧
    (∀ n svc, st.startFirst = some n →
      lookupSvc (update_state_event st.services ev.processname (stateOfEvent ev)) n = some svc →
      ((handle_event st ev).2.head?).map (fun r => r.service) = some svc) ∧
    (∀ r ∈ (handle_event st ev).2,
      (∃ n svc, st.startFirst = some n ∧
        lookupSvc (update_state_event st.services ev.processname (stateOfEvent ev)) n = some svc ∧
        r.service = svc) ∨
      (r.service.options.dependent_startup_get = true ∧
        service_wait_for_satisifed
          (update_state_event st.services ev.processname (stateOfEvent ev)) r.service = true)) := by
  have hrun : handle_event st ev = handle_event_ps st ev := by
    unfold handle_event
    simp [hd, hps]
  rw [hrun]
  unfold handle_event_ps
  have hBserv : (update_proc_info_full { st with services := (update_state_event st.services ev.processname (stateOfEvent ev)) }).services = update_state_event st.services ev.processname (stateOfEvent ev) := by
    rw [upif_services]
  have hBsf : (update_proc_info_full { st with services := (update_state_event st.services ev.processname (stateOfEvent ev)) }).startFirst = st.startFirst := by
    rw [upif_startFirst]
  obtain ⟨h1, h2, h3, h4⟩ := boot_and_start_spec (update_proc_info_full { st with services := (update_state_event st.services ev.processname (stateOfEvent ev)) })
  rw [hBserv] at h1
  rw [hBsf] at h3
  rw [hBserv] at h3
  refine ⟨h1, h2, h3, ?_⟩
  intro r hr
  rcases h4 r hr with ⟨n, svc, hn, hlk, hsvc⟩ | hmain
  · rw [hBsf] at hn
    rw [hBserv] at hlk
    exact Or.inl ⟨n, svc, hn, hlk, hsvc⟩
  · rw [hBserv] at hmain
    exact Or.inr hmain

/-- Helper: looking a service up after a state update returns the updated
version of the original entry. -/
theorem lookup_update_state_event (services : List (String × Service)) (p s k : String) :
    lookupSvc (update_state_event services p s) k =
      (lookupSvc services k).map
        (fun svc => if svc.has_process p then svc.process_state_update p s else svc) := by
  induction services with
  | nil => rfl
  | cons kd rest ih =>
    unfold update_state_event at ih ⊢
    unfold lookupSvc at ih ⊢
    simp only [List.map_cons]
    by_cases h : k == kd.1 <;> simp [List.lookup, h, ih]

/-- Helper: appending to a history never removes a recorded state. -/
theorem contains_append_left {l : List String} {x st : String} (h : l.contains st = true) :
    (l ++ [x]).contains st = true := by
  simp at h ⊢
  exact Or.inl h

/-- Helper: recording one more reached state never invalidates
`has_reached_states`. -/
theorem has_reached_mono (svc : Service) (p s : String) (sts : List String)
    (h : svc.has_reached_states sts = true) :
    (svc.process_state_update p s).has_reached_states sts = true := by
  unfold Service.has_reached_states at h ⊢
  unfold Service.process_state_update
  rw [List.any_eq_true] at h ⊢
  obtain ⟨st, hst, hall⟩ := h
  refine ⟨st, hst, ?_⟩
  rw [List.all_eq_true] at hall ⊢
  intro q hq
  simp only at hq
  obtain ⟨q0, hq0, rfl⟩ := List.mem_map.mp hq
  have hq0c := hall q0 hq0
  by_cases hname : q0.1 == p
  · simp only [hname, if_true]
    exact contains_append_left hq0c
  · simp only [hname, Bool.false_eq_true, if_false]
    exact hq0c

/-- Helper: recording a new process state never invalidates a satisfied
dependency set (histories only grow), for any service with the same declared
dependencies. -/
theorem satisfied_mono (services : List (String × Service)) (p s : String) (svc svc2 : Service)
    (hopts : svc2.options.wait_for_services = svc.options.wait_for_services)
    (h : service_wait_for_satisifed services svc = true) :
    service_wait_for_satisifed (update_state_event services p s) svc2 = true := by
  unfold service_wait_for_satisifed at h ⊢
  rw [hopts]
  rw [List.all_eq_true] at h ⊢
  intro dep hdep
  have hd := h dep hdep
  rw [lookup_update_state_event]
  rcases hlk : lookupSvc services dep.1 with _ | dsvc
  · rw [hlk] at hd
    cases hd
  · rw [hlk] at hd
    simp only [Option.map_some']
    rw [List.any_eq_true] at hd ⊢
    obtain ⟨st, hst, hr⟩ := hd
    refine ⟨st, hst, ?_⟩
    by_cases hp : dsvc.has_process p
    · simp only [hp, if_true]
      exact has_reached_mono dsvc p s [st] hr
    · simp only [hp, Bool.false_eq_true, if_false]
      exact hr

/-- Helper: a state update does not change the table keys. -/
theorem update_state_event_keys (services : List (String × Service)) (p s : String) :
    (update_state_event services p s).map Prod.fst = services.map Prod.fst := by
  induction services with
  | nil => rfl
  | cons kd rest ih =>
    unfold update_state_event at ih ⊢
    simp only [List.map_cons]
    rw [ih]

/-- Helper: a state update does not change the options of the looked-up
service. -/
theorem lookup_update_options (services : List (String × Service)) (p s k : String)
    (svc svc2 : Service) (h : lookupSvc services k = some svc)
    (h2 : lookupSvc (update_state_event services p s) k = some svc2) :
    svc2.options = svc.options := by
  rw [lookup_update_state_event, h, Option.map_some'] at h2
  injection h2 with h2e
  rw [← h2e]
  by_cases hp : svc.has_process p
  · simp only [hp, if_true]
    rfl
  · simp only [hp, Bool.false_eq_true, if_false]

/-- Helper: group reassignment does not change the table keys. -/
theorem update_config_groups_keys (st : SchedState) :
    (update_config_groups st).services.map Prod.fst = st.services.map Prod.fst := by
  unfold update_config_groups
  simp only
  induction st.services with
  | nil => rfl
  | cons kd rest ih =>
    simp only [List.map_cons, List.cons.injEq]
    exact ⟨trivial, ih⟩

/-- Helper: with pairwise distinct keys, membership determines the lookup
result. -/
theorem lookup_eq_of_nodup (l : List (String × Service)) (h : keysNodup l) (n : String)
    (svc : Service) (hmem : (n, svc) ∈ l) : lookupSvc l n = some svc := by
  induction l with
  | nil => cases hmem
  | cons kd rest ih =>
    have hnd : kd.1 ∉ rest.map Prod.fst ∧ keysNodup rest := by
      simpa [keysNodup] using h
    rcases List.mem_cons.mp hmem with heq | hmem2
    · rw [← heq]
      unfold lookupSvc
      simp [List.lookup]
    · have hne : n ≠ kd.1 := by
        intro hc
        apply hnd.1
        rw [← hc]
        exact List.mem_map.mpr ⟨(n, svc), hmem2, rfl⟩
      have hres := ih hnd.2 hmem2
      unfold lookupSvc at hres ⊢
      have hbeq : (n == kd.1) = false := beq_eq_false_iff_ne.mpr hne
      show (match n == kd.1 with
        | true => some kd.2
        | false => List.lookup n rest) = some svc
      rw [hbeq]
      exact hres

/-- Helper: a satisfied dependency set means every declared dependency that
resolves in the table has reached one of its required states. -/
theorem satisfied_elim (services : List (String × Service)) (svc : Service)
    (h : service_wait_for_satisifed services svc = true) :
    ∀ dep ∈ svc.options.wait_for_services, ∀ dsvc,
      lookupSvc services dep.1 = some dsvc → dsvc.has_reached_states dep.2 = true := by
  unfold service_wait_for_satisifed at h
  rw [List.all_eq_true] at h
  intro dep hdep dsvc hlk
  have hd := h dep hdep
  rw [hlk] at hd
  rw [List.any_eq_true] at hd
  obtain ⟨st, hst, hr⟩ := hd
  unfold Service.has_reached_states at hr ⊢
  rw [List.any_eq_true] at hr ⊢
  obtain ⟨st2, hst2, hall⟩ := hr
  have : st2 = st := by simpa using hst2
  exact ⟨st2, this ▸ hst, hall⟩

/-- Helper: `run` establishes the scheduler invariant: distinct keys, and a
pending bootstrap candidate is a known managed service with all dependencies
satisfied. -/
theorem runInit_inv (services : List (String × Service)) (snaps : List (List (String × String)))
    (cfg : List (String × String)) (h : keysNodup services) :
    SchedInv (runInit (initState services snaps cfg)) := by
  have h1 : (update_proc_info_full (initState services snaps cfg)).services = services :=
    upif_services _
  have h2keys : (update_config_groups (update_proc_info_full
      (initState services snaps cfg))).services.map Prod.fst = services.map Prod.fst := by
    rw [update_config_groups_keys, h1]
  have h2sf : (update_config_groups (update_proc_info_full
      (initState services snaps cfg))).startFirst = none := by
    show (update_proc_info_full (initState services snaps cfg)).startFirst = none
    rw [upif_startFirst]
    rfl
  obtain ⟨f1, f2, f3⟩ := refresh_fold_proj
    (update_config_groups (update_proc_info_full (initState services snaps cfg))).services
    (update_config_groups (update_proc_info_full (initState services snaps cfg)))
  have hnd3 : keysNodup ((update_config_groups (update_proc_info_full
      (initState services snaps cfg))).services.foldl refresh_step
      (update_config_groups (update_proc_info_full (initState services snaps cfg)))).services := by
    show (_ : List (String × Service)).map Prod.fst |>.Nodup
    rw [f1, h2keys]
    exact h
  unfold runInit
  dsimp only
  split
  next ns heq =>
    constructor
    · exact hnd3
    · intro n hn
      injection hn with hne
      have hmem : ns ∈ ((update_config_groups (update_proc_info_full
          (initState services snaps cfg))).services.foldl refresh_step
          (update_config_groups (update_proc_info_full (initState services snaps cfg)))).services :=
        List.mem_of_find?_eq_some heq
      have hpred := List.find?_some heq
      simp only [Bool.and_eq_true] at hpred
      refine ⟨ns.2, ?_, hpred.1.1.2, hpred.2⟩
      rw [← hne]
      exact lookup_eq_of_nodup _ hnd3 ns.1 ns.2 (Prod.mk.eta.symm ▸ hmem)
  next heq =>
    constructor
    · exact hnd3
    · intro n hn
      rw [show ((update_config_groups (update_proc_info_full
          (initState services snaps cfg))).services.foldl refresh_step
          (update_config_groups (update_proc_info_full (initState services snaps cfg)))).startFirst
          = none from f2.trans h2sf] at hn
      cases hn

/-- Helper: the scheduler invariant holds in every reachable state. -/
theorem reachable_inv (st : SchedState) (h : Reachable st) : SchedInv st := by
  induction h with
  | base services snaps cfg hnd => exact runInit_inv services snaps cfg hnd
  | step st0 ev h0 ih =>
    by_cases hd : st0.startupDone
    · rw [handle_event_done st0 ev hd]
      exact ih
    · by_cases hps : strStartsWith ev.eventname "PROCESS_STATE"
      · have hd2 : st0.startupDone = false := by simpa using hd
        obtain ⟨h1, h2, -, -⟩ := handle_event_ps_spec st0 ev hd2 hps
        constructor
        · show keysNodup (handle_event st0 ev).1.services
          rw [h1]
          show (_ : List (String × Service)).map Prod.fst |>.Nodup
          rw [update_state_event_keys]
          exact ih.1
        · intro n hn
          rw [h2] at hn
          cases hn
      · rw [handle_event_nonps st0 ev (by simpa using hps)]
        exact ih

/-- C3: in every reachable state of the event loop, every service passed to
`start_service` while handling an event that has `dependent_startup` true has
all its declared dependencies satisfied at the moment of the call: every
dependency that resolves in the (just updated) table has reached one of its
required states. -/
theorem claim3_no_start_with_unmet_deps (st : SchedState) (hr : Reachable st) (ev : Event) :
    ∀ r ∈ (handle_event st ev).2, r.service.options.dependent_startup_get = true →
      ∀ dep ∈ r.service.options.wait_for_services, ∀ dsvc,
        lookupSvc (handle_event st ev).1.services dep.1 = some dsvc →
        dsvc.has_reached_states dep.2 = true := by
  intro r hrec hds dep hdepm dsvc hlk
  obtain ⟨hnd, hsf⟩ := reachable_inv st hr
  by_cases hd : st.startupDone
  · rw [handle_event_done st ev hd] at hrec
    cases hrec
  · by_cases hps : strStartsWith ev.eventname "PROCESS_STATE"
    · have hd2 : st.startupDone = false := by simpa using hd
      obtain ⟨h1, h2, h3, h4⟩ := handle_event_ps_spec st ev hd2 hps
      rw [h1] at hlk
      rcases h4 r hrec with ⟨n, svc, hn, hlkn, hsvc⟩ | ⟨-, hsat⟩
      · obtain ⟨svc0, hlk0, hdep0, hsat0⟩ := hsf n hn
        have hopts : svc.options = svc0.options :=
          lookup_update_options st.services ev.processname (stateOfEvent ev) n svc0 svc
            hlk0 hlkn
        have hsatU : service_wait_for_satisifed
            (update_state_event st.services ev.processname (stateOfEvent ev)) svc = true :=
          satisfied_mono st.services ev.processname (stateOfEvent ev) svc0 svc
            (by rw [hopts]) hsat0
        rw [hsvc] at hdepm
        exact satisfied_elim _ svc hsatU dep hdepm dsvc hlk
      · exact satisfied_elim _ r.service hsat dep hdepm dsvc hlk
    · rw [handle_event_nonps st ev (by simpa using hps)] at hrec
      cases hrec

/-- Witness for C3: in the concrete run where the dependency of `b` on `a`
reaching RUNNING is already satisfied, the start of `b` during the first
event is covered by the theorem, which yields the satisfied-dependency fact. -/
theorem claim3_witness : svcC3A.has_reached_states ["RUNNING"] = true :=
  claim3_no_start_with_unmet_deps (runInit (initState tblC3W [] []))
    (Reachable.base tblC3W [] [] (by decide)) evPS
    (StartRec.mk svcC3B true) (by decide) (by decide)
    ("a", ["RUNNING"]) (by decide) svcC3A (by decide)

/-- Counterexample to C8: the claim states that events arriving after the
scheduler transitioned to DONE are still received and acknowledged.  In the
concrete run below the first event completes the startup phase
(`startupDone` becomes true), and the second event is never received — the
listen loop exits, so no acknowledgment is sent for it (exactly one `ack`
appears in the whole trace). -/
theorem claim8_counterexample :
    (listen (runInit (initState tblBoot [] [])) [evARunning, evPS]).1.startupDone = true ∧
    Action.recv evPS ∉ (listen (runInit (initState tblBoot [] [])) [evARunning, evPS]).2 ∧
    (listen (runInit (initState tblBoot [] [])) [evARunning, evPS]).2.count Action.ack = 1 := by
  decide

/-- C8 amended: every event actually received by the listen loop is
acknowledged after its processing, unconditionally (the trace is a sequence
of receive / start-calls / acknowledge segments); but once `startup_done`
holds the loop exits: events arriving after the transition to DONE are not
received and not acknowledged. -/
theorem claim8_amended_acknowledgment (st : SchedState) (events : List Event) :
    WellAcked (listen st events).2 ∧
    (st.startupDone = true → (listen st events).2 = []) := by
  induction events generalizing st with
  | nil => exact ⟨WellAcked.nil, fun _ => rfl⟩
  | cons ev rest ih =>
    by_cases hd : st.startupDone
    · constructor
      · show WellAcked (listen st (ev :: rest)).2
        unfold listen
        rw [if_pos hd]
        exact WellAcked.nil
      · intro
        unfold listen
        rw [if_pos hd]
    · constructor
      · unfold listen
        rw [if_neg hd]
        dsimp only
        exact WellAcked.seg ev (handle_event st ev).2 (listen (handle_event st ev).1 rest).2
          (ih (handle_event st ev).1).1
      · intro hc
        exact absurd hc hd

/-- Witness for the amended C8: from the immediately-done state, an incoming
event is not received (empty trace), and the trace is well acknowledged. -/
theorem claim8_witness :
    (listen stDone [evPS]).2 = [] ∧ WellAcked (listen stDone [evPS]).2 :=
  ⟨(claim8_amended_acknowledgment stDone [evPS]).2 (by decide),
   (claim8_amended_acknowledgment stDone [evPS]).1⟩

/-- Counterexample to C7: the claim states the bootstrap candidate is started
exactly once, on the first PROCESS_STATE event handled.  In the concrete run
below the candidate `a` is passed to `start_service` twice during the very
first event — once by the deferred bootstrap start and once more by the
ordinary eligibility pass of the same event, because the cached process view
still reports the process as STOPPED (exactly what happens when the first
start RPC faults, e.g. on a spawn error). -/
theorem claim7_counterexample :
    (runInit (initState tblBoot [] [])).startFirst = some "a" ∧
    ((handle_event (runInit (initState tblBoot [] [])) evPS).2.map
      (fun r => (r.service.name, r.rpc))) = [("a", true), ("a", true)] := by
  decide

/-- C7 amended: `run` issues no start call — with no events the whole run
produces no actions at all; any nonempty trace begins with an event receive,
so no start RPC precedes the first event; a non-process-state event starts
nothing and leaves the bootstrap marker in place; on the first process-state
event handled, a pending candidate that resolves in the updated table is the
first service started and the marker is always cleared afterwards (so the
deferred-start mechanism fires at most once); and the marker is never newly
designated by the event loop.  (The candidate may however be passed to
`start_service` again by the ordinary eligibility pass — see the
counterexample — so "started exactly once" does not hold.) -/
theorem claim7_amended_deferred_first_start :
    (∀ (services : List (String × Service)) (snaps : List (List (String × String)))
        (cfg : List (String × String)),
      (run_and_listen (initState services snaps cfg) []).2 = []) ∧
    (∀ (st : SchedState) (events : List Event), (listen st events).2 ≠ [] →
      ∃ ev2 rest2, (listen st events).2 = Action.recv ev2 :: rest2) ∧
    (∀ (st : SchedState) (ev : Event), strStartsWith ev.eventname "PROCESS_STATE" = false →
      handle_event st ev = (st, [])) ∧
    (∀ (st : SchedState) (ev : Event), st.startupDone = false →
      strStartsWith ev.eventname "PROCESS_STATE" = true →
      (handle_event st ev).1.startFirst = none) ∧
    (∀ (st : SchedState) (ev : Event) (n : String) (svc : Service), st.startupDone = false →
      strStartsWith ev.eventname "PROCESS_STATE" = true → st.startFirst = some n →
      lookupSvc (update_state_event st.services ev.processname (stateOfEvent ev)) n = some svc →
      ((handle_event st ev).2.head?).map (fun r => r.service) = some svc) ∧
    (∀ (st : SchedState) (ev : Event), st.startFirst = none →
      (handle_event st ev).1.startFirst = none) := by
  refine ⟨?_, ?_, ?_, ?_, ?_, ?_⟩
  · intro services snaps cfg
    rfl
  · intro st events hne
    cases events with
    | nil => exact absurd rfl hne
    | cons ev rest =>
      by_cases hd : st.startupDone
      · exfalso
        apply hne
        unfold listen
        rw [if_pos hd]
      · refine ⟨ev, (handle_event st ev).2.map Action.start ++
          Action.ack :: (listen (handle_event st ev).1 rest).2, ?_⟩
        simp only [listen]
        rw [if_neg hd]
        rfl
  · intro st ev h
    exact handle_event_nonps st ev h
  · intro st ev hd hps
    exact (handle_event_ps_spec st ev hd hps).2.1
  · intro st ev n svc hd hps hn hlk
    exact (handle_event_ps_spec st ev hd hps).2.2.1 n svc hn hlk
  · intro st ev hn
    by_cases hd : st.startupDone
    · rw [handle_event_done st ev hd]
      exact hn
    · by_cases hps : strStartsWith ev.eventname "PROCESS_STATE"
      · exact (handle_event_ps_spec st ev (by simpa using hd) hps).2.1
      · rw [handle_event_nonps st ev (by simpa using hps)]
        exact hn

/-- Witness for the amended C7: on the concrete one-service table the
candidate `a` is the first service started by the first event, and with no
events nothing at all happens. -/
theorem claim7_witness :
    ((handle_event (runInit (initState tblBoot [] [])) evPS).2.head?).map
        (fun r => r.service) = some (simpleService "a" none none []) ∧
    (run_and_listen (initState tblBoot [] []) []).2 = [] :=
  ⟨claim7_amended_deferred_first_start.2.2.2.2.1 (runInit (initState tblBoot [] [])) evPS
     "a" (simpleService "a" none none []) (by decide) (by decide) (by decide) (by decide),
   claim7_amended_deferred_first_start.1 tblBoot [] []⟩

end DependentStartup
